import Mathlib

/-!
Verification of the preview-generation subsystem of `bucket-viewer`
(`src/backend/utils/file_handlers.py` and `src/backend/app.py`).

The Python code is shallowly embedded: pure lookups become Lean functions,
file-system and third-party-library interactions (open/read, pandas, PIL,
python-docx, minidom) are modelled by a `PyFile` record of observable
outcomes, exceptions become `Except`, and every decoder/dispatcher is a
total Lean function mirroring the source control flow.
-/

set_option maxRecDepth 4000

namespace BucketViewer

/-- One cell of a tabular preview: pandas may keep numeric cells typed,
the `csv`-module fallback yields strings only. -/
inductive Cell where
  | s (v : String)
  | n (v : Int)
deriving DecidableEq, Repr

/-- The dict shapes returned by the preview functions in
`file_handlers.py`, discriminated by their `"type"` field. -/
inductive PreviewResult where
  /-- `{"type": "text", "preview": ..., "extension": ...}` -/
  | text (preview : String) (extension : String)
  /-- `{"type": "csv", "preview": {"columns": ..., "data": ...}}` -/
  | csv (columns : List String) (data : List (List Cell))
  /-- `{"type": "xlsx", "preview": {"columns": ..., "data": ...}}` -/
  | xlsx (columns : List String) (data : List (List Cell))
  /-- `{"type": "image", "preview": <base64>, "mime": ...}` -/
  | image (preview : String) (mime : String)
  /-- `{"type": "docx", "preview": ...}` -/
  | docx (preview : String)
  /-- `{"type": "pdf", "preview": "PDF preview not available"}` -/
  | pdf
  /-- `{"type": "zip", "preview": "Archive files cannot be previewed. ..."}` -/
  | zip
  /-- `{"type": "unsupported", "preview": f"Preview not available for {extension} files"}` -/
  | unsupported (extension : String)
  /-- `{"type": "binary", "preview": "This appears to be a binary file ..."}` -/
  | binary
  /-- `{"type": "error", "preview": ...}` -/
  | error (preview : String)
deriving DecidableEq, Repr

/-- Outcome of opening the file in text mode (`encoding="utf-8"`) and
reading it: the decoded character content, a `UnicodeDecodeError`, or
some other exception (I/O error) with its message. -/
inductive TextRead where
  | ok (content : String)
  | unicodeErr
  | exn (msg : String)
deriving Repr

/-- Observable state of a PIL image object: dimensions, `img.format`
(`none` when PIL cannot determine it), and the base64 text produced by
saving to a buffer in a given format and base64-encoding the bytes. -/
structure PILImage where
  width : Nat
  height : Nat
  format : Option String
  save : String → String

/-- A file on disk as the decoders observe it: each field records the
outcome of one library interaction on that file.  `error` values model
exceptions raised by the corresponding library call. -/
structure PyFile where
  /-- `open(path, encoding="utf-8")` followed by reads. -/
  text : TextRead
  /-- `pd.read_csv(path)` without a row limit: header row and all data
  rows; `nrows=k` truncates the data rows to `k`. -/
  pdCsv : Except String (List String × List (List Cell))
  /-- `csv.reader` row stream of the file. -/
  csvLines : Except String (List (List String))
  /-- `pd.read_excel(path, sheet_name=0)` without a row limit. -/
  pdXlsx : Except String (List String × List (List Cell))
  /-- `docx.Document(path).paragraphs` texts. -/
  docxParas : Except String (List String)
  /-- `PIL.Image.open(path)`. -/
  image : Except String PILImage
  /-- `xml.dom.minidom.parse(path).toprettyxml()`, `none` when parsing
  raises (the code swallows the exception with a bare `except`). -/
  xmlPretty : Option String

/- ### Type classifier (`SUPPORTED_TYPES`, `is_supported_type`, `get_file_type`) -/

def textExts : List String := ["txt", "md", "json", "csv", "xml", "html", "css", "js", "py", "r"]
def imageExts : List String := ["jpg", "jpeg", "png", "gif", "tif", "tiff", "bmp", "svg"]
def documentExts : List String := ["docx", "xlsx", "pdf"]
def archiveExts : List String := ["zip", "tar", "gz", "rar"]

def SUPPORTED_TYPES : List (String × List String) :=
  [("text", textExts), ("image", imageExts), ("document", documentExts),
   ("archive", archiveExts), ("other", [])]

/-- Model of Python's `str.lower()` (ASCII case folding, which covers
every extension the table holds). -/
def lowerStr (s : String) : String := String.mk (s.data.map Char.toLower)

/-- The category lookup loop shared by `is_supported_type` and
`get_file_type`: first category whose list contains the key, else `"other"`. -/
def lookupCategory (key : String) : String :=
  match SUPPORTED_TYPES.find? (fun p => p.2.contains key) with
  | some p => p.1
  | none => "other"

/-- `get_file_type` (file_handlers.py lines 48-54). -/
def get_file_type (extension : String) : String :=
  lookupCategory (if extension = "" then "" else lowerStr extension)

/-- 100MB size limit (104,857,600 bytes). -/
def MAX_SIZE : Nat := 104857600

/-- `is_supported_type` (file_handlers.py lines 19-45). -/
def is_supported_type (extension : String) (size : Option Nat) : Bool :=
  let sizeTooBig : Bool := match size with
    | some s => decide (MAX_SIZE < s)
    | none => false
  if sizeTooBig then false
  else if archiveExts.contains (lowerStr extension) then false
  else SUPPORTED_TYPES.any (fun p => p.2.contains (lowerStr extension))

/- ### Model of Python's `json` module: `json.loads` and `json.dumps(·, indent=2)`

Numbers are modelled as integers and strings as runs of characters that
need no escaping (no quote, no backslash, no control characters); inputs
outside this fragment are modelled as parse failures, which only moves
them to the code's raw-text fallback branch. -/

inductive Json where
  | null
  | bool (b : Bool)
  | num (n : Int)
  | str (s : String)
  | arr (xs : List Json)
  | obj (kvs : List (String × Json))
deriving Repr

def isWsChar (c : Char) : Bool :=
  c == ' ' || c == '\t' || c == '\n' || c == '\r'

def skipWs : List Char → List Char
  | [] => []
  | c :: cs => if isWsChar c then skipWs cs else c :: cs

def digitVal (c : Char) : Nat := c.toNat - 48

def digitChar : Nat → Char
  | 0 => '0' | 1 => '1' | 2 => '2' | 3 => '3' | 4 => '4'
  | 5 => '5' | 6 => '6' | 7 => '7' | 8 => '8' | _ => '9'

/-- Decimal digits of `n`, most significant first (`fuel ≥ n + 1` is
always enough since the argument shrinks by a factor of ten). -/
def natToDigitsAux : Nat → Nat → List Char
  | 0, _ => []
  | Nat.succ f, n =>
    if n < 10 then [digitChar n]
    else natToDigitsAux f (n / 10) ++ [digitChar (n % 10)]

def natToDigits (n : Nat) : List Char := natToDigitsAux (n + 1) n

def foldDigits (ds : List Char) : Nat :=
  ds.foldl (fun a c => 10 * a + digitVal c) 0

/-- `repr` of a Python int. -/
def intRepr (n : Int) : List Char :=
  if n < 0 then '-' :: natToDigits n.natAbs else natToDigits n.natAbs

def spanDigits : List Char → List Char × List Char
  | [] => ([], [])
  | c :: cs =>
    if c.isDigit then
      let p := spanDigits cs
      (c :: p.1, p.2)
    else ([], c :: cs)

def parseNat? (cs : List Char) : Option (Nat × List Char) :=
  match spanDigits cs with
  | ([], _) => none
  | (ds, r) => some (foldDigits ds, r)

def parseNumber (cs : List Char) : Option (Int × List Char) :=
  match cs with
  | [] => none
  | c :: rest =>
    if c = '-' then (parseNat? rest).map (fun p => (-(p.1 : Int), p.2))
    else (parseNat? (c :: rest)).map (fun p => ((p.1 : Int), p.2))

/-- Body of a JSON string after the opening quote: plain characters up
to the closing quote; escapes and control characters are rejected. -/
def parseStrBody : List Char → Option (List Char × List Char)
  | [] => none
  | c :: cs =>
    if c = '"' then some ([], cs)
    else if c = '\\' ∨ c.toNat < 32 then none
    else (parseStrBody cs).map (fun p => (c :: p.1, p.2))

/-- Key insertion into a Python dict built during object parsing:
an existing key keeps its position and gets the new value, a new key is
appended. -/
def insertKV : List (String × Json) → String → Json → List (String × Json)
  | [], k, v => [(k, v)]
  | (k', v') :: rest, k, v =>
    if k' = k then (k', v) :: rest else (k', v') :: insertKV rest k v

def buildObj (ps : List (String × Json)) : List (String × Json) :=
  ps.foldl (fun m p => insertKV m p.1 p.2) []

def headIs (l : List Char) (ch : Char) : Bool :=
  match l with
  | c :: _ => c == ch
  | [] => false

mutual

def parseV : Nat → List Char → Option (Json × List Char)
  | 0, _ => none
  | Nat.succ f, cs =>
    match skipWs cs with
    | [] => none
    | c :: rest =>
      if c = 'n' then
        match rest with
        | 'u' :: 'l' :: 'l' :: r => some (.null, r)
        | _ => none
      else if c = 't' then
        match rest with
        | 'r' :: 'u' :: 'e' :: r => some (.bool true, r)
        | _ => none
      else if c = 'f' then
        match rest with
        | 'a' :: 'l' :: 's' :: 'e' :: r => some (.bool false, r)
        | _ => none
      else if c = '"' then
        (parseStrBody rest).map (fun p => (.str (String.mk p.1), p.2))
      else if c = '\x7b' then
        if headIs (skipWs rest) '\x7d' then some (.obj [], (skipWs rest).tail)
        else (parseMembers f rest).map (fun p => (.obj (buildObj p.1), p.2))
      else if c = '[' then
        if headIs (skipWs rest) ']' then some (.arr [], (skipWs rest).tail)
        else (parseItems f rest).map (fun p => (.arr p.1, p.2))
      else if c = '-' ∨ c.isDigit then
        (parseNumber (c :: rest)).map (fun p => (.num p.1, p.2))
      else none

def parseItems : Nat → List Char → Option (List Json × List Char)
  | 0, _ => none
  | Nat.succ f, cs =>
    (parseV f cs).bind (fun vp =>
      match skipWs vp.2 with
      | ',' :: r2 => (parseItems f r2).map (fun p => (vp.1 :: p.1, p.2))
      | ']' :: r2 => some ([vp.1], r2)
      | _ => none)

def parseMembers : Nat → List Char → Option (List (String × Json) × List Char)
  | 0, _ => none
  | Nat.succ f, cs =>
    match skipWs cs with
    | '"' :: rest =>
      (parseStrBody rest).bind (fun kp =>
        match skipWs kp.2 with
        | ':' :: r2 =>
          (parseV f r2).bind (fun vp =>
            match skipWs vp.2 with
            | ',' :: r4 =>
              (parseMembers f r4).map (fun p => ((String.mk kp.1, vp.1) :: p.1, p.2))
            | '\x7d' :: r4 => some ([(String.mk kp.1, vp.1)], r4)
            | _ => none)
        | _ => none)
    | _ => none

end

/-- `json.loads`: parse the whole string, allowing trailing whitespace only. -/
def loads (s : String) : Option Json :=
  match parseV (s.data.length + 1) s.data with
  | some (v, rest) => if skipWs rest = [] then some v else none
  | none => none

def indentChars (n : Nat) : List Char := List.replicate n ' '

mutual

/-- `json.dumps(v, indent=2)` at nesting depth `d`, as characters. -/
def dumpJ : Json → Nat → List Char
  | .null, _ => ['n', 'u', 'l', 'l']
  | .bool true, _ => ['t', 'r', 'u', 'e']
  | .bool false, _ => ['f', 'a', 'l', 's', 'e']
  | .num n, _ => intRepr n
  | .str s, _ => '"' :: s.data ++ ['"']
  | .arr [], _ => ['[', ']']
  | .arr (x :: xs), d =>
    '[' :: '\n' :: (dumpItems (x :: xs) (d + 1) ++ '\n' :: (indentChars (2 * d) ++ [']']))
  | .obj [], _ => ['\x7b', '\x7d']
  | .obj (kv :: kvs), d =>
    '\x7b' :: '\n' :: (dumpMembers (kv :: kvs) (d + 1) ++ '\n' :: (indentChars (2 * d) ++ ['\x7d']))

def dumpItems : List Json → Nat → List Char
  | [], _ => []
  | [x], d => indentChars (2 * d) ++ dumpJ x d
  | x :: y :: xs, d =>
    indentChars (2 * d) ++ (dumpJ x d ++ ',' :: '\n' :: dumpItems (y :: xs) d)

def dumpMembers : List (String × Json) → Nat → List Char
  | [], _ => []
  | [(k, v)], d => indentChars (2 * d) ++ ('"' :: k.data ++ '"' :: ':' :: ' ' :: dumpJ v d)
  | (k, v) :: m :: ms, d =>
    indentChars (2 * d) ++
      ('"' :: k.data ++ '"' :: ':' :: ' ' :: (dumpJ v d ++ ',' :: '\n' :: dumpMembers (m :: ms) d))

end

def dumps (v : Json) : String := String.mk (dumpJ v 0)

/- Well-formedness: what `loads` can produce — strings need no escaping,
object keys are distinct. -/

def cleanChar (c : Char) : Prop := c ≠ '"' ∧ c ≠ '\\' ∧ 32 ≤ c.toNat

def cleanL (l : List Char) : Prop := ∀ c ∈ l, cleanChar c

mutual

def wfJ : Json → Prop
  | .null => True
  | .bool _ => True
  | .num _ => True
  | .str s => cleanL s.data
  | .arr xs => wfL xs
  | .obj kvs => (kvs.map Prod.fst).Nodup ∧ wfM kvs

def wfL : List Json → Prop
  | [] => True
  | x :: xs => wfJ x ∧ wfL xs

def wfM : List (String × Json) → Prop
  | [] => True
  | (k, v) :: rest => cleanL k.data ∧ wfJ v ∧ wfM rest

end

/- Fuel measure: an upper bound on the recursion depth the parser needs
to reconsume a printed value. -/

mutual

def sizeJ : Json → Nat
  | .null => 1
  | .bool _ => 1
  | .num _ => 1
  | .str _ => 1
  | .arr [] => 1
  | .arr (x :: xs) => 1 + sizeItems (x :: xs)
  | .obj [] => 1
  | .obj (kv :: kvs) => 1 + sizeMembers (kv :: kvs)

def sizeItems : List Json → Nat
  | [] => 0
  | x :: xs => 1 + sizeJ x + sizeItems xs

def sizeMembers : List (String × Json) → Nat
  | [] => 0
  | (_, v) :: rest => 1 + sizeJ v + sizeMembers rest

end

/- ### Format decoders (`file_handlers.py`) -/

/-- `f.read(n)` on a text-mode handle: the first `n` characters. -/
def readChars (s : String) (n : Nat) : String := String.mk (s.data.take n)

/-- `get_text_preview` (file_handlers.py lines 89-167).  The `Except`
error carries an exception propagating out of the function (anything
other than the `UnicodeDecodeError` it catches itself). -/
def get_text_preview (file : PyFile) (extension : String) : Except String PreviewResult :=
  match file.text with
  | .unicodeErr => .ok .binary
  | .exn m => .error m
  | .ok full =>
    let content := readChars full 10000
    if extension = "json" then
      match loads content with
      | some parsed => .ok (.text (dumps parsed) extension)
      | none => .ok (.text content extension)
    else if extension = "csv" then
      match file.pdCsv with
      | .ok (cols, data) => .ok (.csv cols ((data.take 100).take 100))
      | .error _ =>
        match file.csvLines with
        | .ok [] => .ok (.csv [] [])
        | .ok (h :: t) => .ok (.csv h ((t.take 100).map (fun r => r.map Cell.s)))
        | .error _ => .ok (.text (readChars full 10000) "txt")
    else if extension = "xml" then
      match file.xmlPretty with
      | some p => .ok (.text p extension)
      | none => .ok (.text content extension)
    else .ok (.text content extension)

/-- Division rounded to nearest (model of the rounding PIL applies when
scaling the short side of a thumbnail). -/
def rdiv (a b : Nat) : Nat := (2 * a + b) / (2 * b)

/-- `img.thumbnail((800, 800), Image.LANCZOS)`: downscale preserving
aspect ratio so both sides fit in 800, never enlarging. -/
def thumbnail (w h : Nat) : Nat × Nat :=
  if w ≤ 800 ∧ h ≤ 800 then (w, h)
  else if h ≤ w then (800, rdiv (h * 800) w)
  else (rdiv (w * 800) h, 800)

/-- The dimension-capping step of `get_image_preview`: thumbnail only
when either dimension exceeds 800. -/
def resizeImg (img : PILImage) : PILImage :=
  if 800 < img.width ∨ 800 < img.height then
    { img with width := (thumbnail img.width img.height).1,
               height := (thumbnail img.width img.height).2 }
  else img

/-- `get_image_preview` (file_handlers.py lines 171-223). -/
def get_image_preview (file : PyFile) (extension : String) : PreviewResult :=
  if ["tif", "tiff"].contains (lowerStr extension) then
    match file.image with
    | .error e => .error ("Error processing TIF/TIFF file: " ++ e)
    | .ok img => .image ((resizeImg img).save "PNG") "image/png"
  else
    match file.image with
    | .error e => .error ("Error processing image: " ++ e)
    | .ok img =>
      let img2 := resizeImg img
      .image (img2.save (img2.format.getD "PNG"))
        ("image/" ++ (match img2.format with | some fm => lowerStr fm | none => "png"))

/-- `get_docx_preview` (file_handlers.py lines 226-240). -/
def get_docx_preview (file : PyFile) : PreviewResult :=
  match file.docxParas with
  | .error e => .error ("Error parsing DOCX file: " ++ e)
  | .ok paras => .docx (String.intercalate "\n" (paras.take 100))

/-- `get_xlsx_preview` (file_handlers.py lines 243-257):
`pd.read_excel(..., nrows=100)` then `df.head(100)`. -/
def get_xlsx_preview (file : PyFile) : PreviewResult :=
  match file.pdXlsx with
  | .error e => .error ("Error parsing XLSX file: " ++ e)
  | .ok (cols, data) => .xlsx cols ((data.take 100).take 100)

/- ### Preview dispatcher (`get_file_preview`, file_handlers.py lines 57-86) -/

/-- The body of `get_file_preview`'s `try` block; an `Except.error` is an
exception reaching the dispatcher's `except Exception` handler. -/
def preview_body (file : PyFile) (extension : String) : Except String PreviewResult :=
  let fileType := get_file_type extension
  if fileType = "text" then get_text_preview file extension
  else if fileType = "image" then .ok (get_image_preview file extension)
  else if fileType = "document" then
    if extension = "docx" then .ok (get_docx_preview file)
    else if extension = "xlsx" then .ok (get_xlsx_preview file)
    else if extension = "pdf" then .ok .pdf
    else .ok (.unsupported extension)
  else if fileType = "archive" then .ok .zip
  else .ok (.unsupported extension)

/-- `get_file_preview`: the dispatcher with its `try`/`except` boundary. -/
def get_file_preview (file : PyFile) (extension : String) : PreviewResult :=
  match preview_body file extension with
  | .ok r => r
  | .error e => .error ("Error generating preview: " ++ e)

/- ### `app.py`: `format_file_size` and the preview branch of `get_file` -/

def sizeUnits : List String := ["B", "KB", "MB", "GB", "TB"]

/-- The `while bytes >= 1024 and i < len(units) - 1` loop of
`format_file_size` (app.py lines 357-374), which repeatedly divides the
running value by 1024.  Each Python float division by 1024 is an exact
exponent shift, so after `i` iterations the running value is exactly
`bytes / 1024 ^ i`; the loop is modelled by tracking `i` with the value
kept as that exact fraction (the guard `value ≥ 1024` is
`bytes ≥ 1024 ^ (i + 1)`), exact for every size below `2 ^ 53` where the
initial int→float conversion rounds nothing.  The fuel starts at 4, the
bound the guard `i < len(units) - 1` enforces. -/
def sizeLoopI : Nat → Nat → Nat → Nat
  | 0, _, i => i
  | Nat.succ f, bytes, i =>
    if 1024 ^ (i + 1) ≤ bytes then sizeLoopI f bytes (i + 1) else i

/-- The unit index `format_file_size` settles on. -/
def unitIndex (bytes : Nat) : Nat := sizeLoopI 4 bytes 0

/-- `f"{x:.2f}"` for the exact nonnegative fraction `num / den`
(round-half-up; the values this file evaluates it on are not ties, where
Python's float rounding could differ). -/
def twoDecN (num den : Nat) : String :=
  let n := (200 * num + den) / (2 * den)
  let frac := n % 100
  toString (n / 100) ++ "." ++ (if frac < 10 then "0" ++ toString frac else toString frac)

/-- `format_file_size` (app.py lines 357-374). `int(bytes)` truncates,
which on these nonnegative values is the floor `bytes / 1024 ^ i`. -/
def format_file_size (bytes : Nat) : String :=
  if bytes = 0 then "0 B"
  else
    let i := unitIndex bytes
    let unit := sizeUnits.getD i ""
    if 3 ≤ i then twoDecN bytes (1024 ^ i) ++ " " ++ unit
    else toString (bytes / 1024 ^ i) ++ " " ++ unit

/-- Responses of the preview branch of the `/api/file` route. -/
inductive RouteResult where
  | tooLarge (preview : String) (size : Nat)
  | archivePlaceholder (size : Nat)
  | preview (r : PreviewResult)
deriving DecidableEq, Repr

def MAX_PREVIEW_SIZE : Nat := 104857600

/-- The preview branch of `get_file` (app.py lines 241-287): `qSize` is
the `size` query parameter, `headSize` the `ContentLength` returned by
`head_object` (consulted only when `qSize` is absent).  Python's
`if file_size and file_size > MAX_PREVIEW_SIZE` skips the check when
`file_size` is 0 (falsy). -/
def get_file_route (file : PyFile) (ext : String) (qSize : Option Nat) (headSize : Nat) :
    RouteResult :=
  let fileSize := qSize.getD headSize
  if 0 < fileSize ∧ MAX_PREVIEW_SIZE < fileSize then
    .tooLarge ("This file is " ++ format_file_size fileSize ++
      ", which exceeds the preview size limit.") fileSize
  else if archiveExts.contains (lowerStr ext) then .archivePlaceholder fileSize
  else .preview (get_file_preview file ext)

/- ### Predicates used by the JSON round-trip development -/

/-- A suffix the number parser may stop in front of (greedy digit
scanning must not continue into it). -/
def goodRest : List Char → Prop
  | [] => True
  | c :: _ => c.isDigit = false

/-- The characters a printed JSON value can start with. -/
def goodHead (c : Char) : Prop :=
  c = 'n' ∨ c = 't' ∨ c = 'f' ∨ c = '"' ∨ c = '[' ∨ c = '\x7b' ∨ c = '-' ∨
    c.isDigit = true

/- ### Concrete data used by witnesses and counterexamples -/

/-- The seven text extensions with no format-specific sub-branch. -/
def genericTextExts : List String := ["txt", "md", "html", "css", "js", "py", "r"]

def someImage : PILImage :=
  { width := 2000, height := 1000, format := some "JPEG", save := fun _ => "aGVsbG8=" }

def defaultFile : PyFile :=
  { text := .ok "hello", pdCsv := .error "pandas failed",
    csvLines := .error "csv module failed", pdXlsx := .error "xlsx failed",
    docxParas := .error "docx failed", image := .ok someImage, xmlPretty := none }

def errFile : PyFile := { defaultFile with text := .exn "boom" }

def binFile : PyFile := { defaultFile with text := .unicodeErr }

def longText : String := String.mk (List.replicate 50000 'a')

def longFile : PyFile := { defaultFile with text := .ok longText }

def row500 : List (List Cell) := List.replicate 500 [Cell.n 7]

def csvFile : PyFile :=
  { defaultFile with text := .ok "h1,h2", pdCsv := .ok (["h1", "h2"], row500) }

def csvFallbackFile : PyFile :=
  { defaultFile with
    text := .ok "h1,h2"
    csvLines := .ok [["h1", "h2"], ["a", "b"], ["c", "d"]] }

def tifImage : PILImage :=
  { width := 900, height := 300, format := some "TIFF", save := fun _ => "dGlmZg==" }

def tifFile : PyFile := { defaultFile with image := .ok tifImage }

def tifErrFile : PyFile := { defaultFile with image := .error "bad tiff" }

def jsonText : String := "\x7b\"a\":1\x7d"

def jsonFile : PyFile := { defaultFile with text := .ok jsonText }

/- ### Classifier lemmas -/

lemma key_eq (e : String) : (if e = "" then "" else lowerStr e) = lowerStr e := by
  split
  · next h => rw [h]; rfl
  · rfl

lemma get_file_type_eq (e : String) : get_file_type e = lookupCategory (lowerStr e) := by
  unfold get_file_type; rw [key_eq]

lemma char_toNat_ofNat (n : Nat) (h : n.isValidChar) : (Char.ofNat n).toNat = n := by
  simp [Char.ofNat, h, Char.ofNatAux, Char.toNat, UInt32.toNat]

lemma toLower_idem (c : Char) : c.toLower.toLower = c.toLower := by
  simp only [Char.toLower]
  by_cases h : c.toNat ≥ 65 ∧ c.toNat ≤ 90
  · have hv : (c.toNat + 32).isValidChar := Or.inl (by omega)
    have h2 : (Char.ofNat (c.toNat + 32)).toNat = c.toNat + 32 := char_toNat_ofNat _ hv
    rw [if_pos h, if_neg (by rw [h2]; omega)]
  · rw [if_neg h, if_neg h]

lemma lowerStr_idem (s : String) : lowerStr (lowerStr s) = lowerStr s := by
  have : ∀ l : List Char, (l.map Char.toLower).map Char.toLower = l.map Char.toLower := by
    intro l
    induction l with
    | nil => rfl
    | cons c cs ih => simp [toLower_idem, ih]
  unfold lowerStr
  show String.mk ((s.data.map Char.toLower).map Char.toLower) = _
  rw [this]

lemma lookup_text : ∀ k ∈ textExts, lookupCategory k = "text" := by decide
lemma lookup_image : ∀ k ∈ imageExts, lookupCategory k = "image" := by decide
lemma lookup_document : ∀ k ∈ documentExts, lookupCategory k = "document" := by decide
lemma lookup_archive : ∀ k ∈ archiveExts, lookupCategory k = "archive" := by decide
lemma text_not_archive : ∀ k ∈ textExts, k ∉ archiveExts := by decide
lemma image_not_archive : ∀ k ∈ imageExts, k ∉ archiveExts := by decide
lemma document_not_archive : ∀ k ∈ documentExts, k ∉ archiveExts := by decide

lemma lookup_unlisted (k : String)
    (h : SUPPORTED_TYPES.any (fun p => p.2.contains k) = false) :
    lookupCategory k = "other" := by
  unfold lookupCategory
  rw [List.find?_eq_none.mpr]
  intro p hp
  simpa using List.any_eq_false.mp h p hp

lemma any_of_mem {k : String} (cat : String × List String) (hc : cat ∈ SUPPORTED_TYPES)
    (hk : k ∈ cat.2) :
    SUPPORTED_TYPES.any (fun p => p.2.contains k) = true :=
  List.any_eq_true.mpr ⟨cat, hc, List.elem_iff.mpr hk⟩

lemma any_eq_false_of_not_mem {k : String} (h1 : k ∉ textExts) (h2 : k ∉ imageExts)
    (h3 : k ∉ documentExts) (h4 : k ∉ archiveExts) :
    SUPPORTED_TYPES.any (fun p => p.2.contains k) = false := by
  apply List.any_eq_false.mpr
  intro p hp
  simp only [SUPPORTED_TYPES, List.mem_cons, List.not_mem_nil, or_false] at hp
  rcases hp with rfl | rfl | rfl | rfl | rfl <;> simp [List.elem_iff, h1, h2, h3, h4]

lemma lookup_cases (k : String) :
    (k ∈ textExts ∧ lookupCategory k = "text") ∨
    (k ∈ imageExts ∧ lookupCategory k = "image") ∨
    (k ∈ documentExts ∧ lookupCategory k = "document") ∨
    (k ∈ archiveExts ∧ lookupCategory k = "archive") ∨
    (k ∉ textExts ∧ k ∉ imageExts ∧ k ∉ documentExts ∧ k ∉ archiveExts ∧
      lookupCategory k = "other") := by
  by_cases h1 : k ∈ textExts
  · exact Or.inl ⟨h1, lookup_text k h1⟩
  by_cases h2 : k ∈ imageExts
  · exact Or.inr (Or.inl ⟨h2, lookup_image k h2⟩)
  by_cases h3 : k ∈ documentExts
  · exact Or.inr (Or.inr (Or.inl ⟨h3, lookup_document k h3⟩))
  by_cases h4 : k ∈ archiveExts
  · exact Or.inr (Or.inr (Or.inr (Or.inl ⟨h4, lookup_archive k h4⟩)))
  refine Or.inr (Or.inr (Or.inr (Or.inr ⟨h1, h2, h3, h4, ?_⟩)))
  exact lookup_unlisted k (any_eq_false_of_not_mem h1 h2 h3 h4)

lemma is_supported_none_eq (e : String) :
    is_supported_type e none =
      (!archiveExts.contains (lowerStr e) &&
        SUPPORTED_TYPES.any (fun p => p.2.contains (lowerStr e))) := by
  by_cases h : archiveExts.contains (lowerStr e) <;> simp [is_supported_type, h]

lemma no_size_iff (e : String) :
    is_supported_type e none = false ↔
      (get_file_type e = "archive" ∨ (∀ p ∈ SUPPORTED_TYPES, lowerStr e ∉ p.2)) := by
  rw [get_file_type_eq, is_supported_none_eq]
  rcases lookup_cases (lowerStr e) with ⟨h, hl⟩ | ⟨h, hl⟩ | ⟨h, hl⟩ | ⟨h, hl⟩ |
    ⟨h1, h2, h3, h4, hl⟩
  · have ha := text_not_archive _ h
    have := any_of_mem ("text", textExts) (by decide) h
    rw [hl]
    simp [List.elem_iff, ha, this]
  · have ha := image_not_archive _ h
    have := any_of_mem ("image", imageExts) (by decide) h
    rw [hl]
    simp [List.elem_iff, ha, this]
  · have ha := document_not_archive _ h
    have := any_of_mem ("document", documentExts) (by decide) h
    rw [hl]
    simp [List.elem_iff, ha, this]
  · rw [hl]
    simp [List.elem_iff, h]
  · rw [hl]
    have hany := any_eq_false_of_not_mem h1 h2 h3 h4
    simp [hany]
    exact Or.inl h4

/- ### Size-formatting lemmas -/

lemma sizeLoopI_le (f : Nat) : ∀ b i, sizeLoopI f b i ≤ i + f := by
  induction f with
  | zero => intro b i; simp [sizeLoopI]
  | succ f ih =>
    intro b i
    unfold sizeLoopI
    split
    · exact (ih b (i + 1)).trans (by omega)
    · omega

lemma unitIndex_le (bytes : Nat) : unitIndex bytes ≤ 4 :=
  sizeLoopI_le 4 bytes 0

/- ### Claim theorems: classifier and size formatting -/

/-- C2: the classifier is a pure lookup against the fixed extension
table: listed extensions map to their category, unlisted ones to
`other`; `is_supported_type` is false exactly when the size is provided
and exceeds 104,857,600 bytes, or the category is archive, or the
extension matches no table entry, and true otherwise (the size check is
skipped when the size is absent). -/
theorem claim_C2 :
    (∀ p ∈ SUPPORTED_TYPES, ∀ k ∈ p.2, get_file_type k = p.1) ∧
    (∀ e : String, (∀ p ∈ SUPPORTED_TYPES, lowerStr e ∉ p.2) → get_file_type e = "other") ∧
    (∀ (e : String) (s : Option Nat), is_supported_type e s = false ↔
      ((∃ n, s = some n ∧ MAX_SIZE < n) ∨ get_file_type e = "archive" ∨
        (∀ p ∈ SUPPORTED_TYPES, lowerStr e ∉ p.2))) := by
  refine ⟨by decide, ?_, ?_⟩
  · intro e h
    rw [get_file_type_eq]
    exact lookup_unlisted _ (List.any_eq_false.mpr
      (fun p hp => by simpa [List.elem_iff] using h p hp))
  · intro e s
    cases s with
    | none =>
      rw [no_size_iff e]
      simp
    | some n =>
      by_cases hn : MAX_SIZE < n
      · have hL : is_supported_type e (some n) = false := by
          simp [is_supported_type, hn]
        simp only [hL, true_iff]
        exact Or.inl ⟨n, rfl, hn⟩
      · have heq : is_supported_type e (some n) = is_supported_type e none := by
          simp [is_supported_type, hn]
        rw [heq, no_size_iff]
        simp [hn]

theorem claim_C2_witness :
    get_file_type "docx" = "document" ∧ get_file_type "exe" = "other" ∧
      is_supported_type "pdf" (some 104857601) = false :=
  ⟨claim_C2.1 ("document", documentExts) (by decide) "docx" (by decide),
   claim_C2.2.1 "exe" (by decide),
   (claim_C2.2.2 "pdf" (some 104857601)).mpr (Or.inl ⟨104857601, rfl, by decide⟩)⟩

/-- C9: the two classifier entry points never disagree: with no size,
`is_supported_type` returns true exactly when `get_file_type` maps the
extension to text, image or document; archive and other classifications
are unsupported. -/
theorem claim_C9 (e : String) :
    is_supported_type e none = true ↔
      (get_file_type e = "text" ∨ get_file_type e = "image" ∨
        get_file_type e = "document") := by
  rw [get_file_type_eq, is_supported_none_eq]
  rcases lookup_cases (lowerStr e) with ⟨h, hl⟩ | ⟨h, hl⟩ | ⟨h, hl⟩ | ⟨h, hl⟩ |
    ⟨h1, h2, h3, h4, hl⟩
  · have ha := text_not_archive _ h
    rw [hl]; simp [List.elem_iff, ha]
    exact ⟨"text", textExts, by decide, h⟩
  · have ha := image_not_archive _ h
    rw [hl]; simp [List.elem_iff, ha]
    exact ⟨"image", imageExts, by decide, h⟩
  · have ha := document_not_archive _ h
    rw [hl]; simp [List.elem_iff, ha]
    exact ⟨"document", documentExts, by decide, h⟩
  · rw [hl]; simp [List.elem_iff, h]
  · rw [hl]; simp [List.elem_iff, h4]
    rintro a b hab
    simp only [SUPPORTED_TYPES, List.mem_cons, List.not_mem_nil, or_false,
      Prod.mk.injEq] at hab
    rcases hab with ⟨rfl, rfl⟩ | ⟨rfl, rfl⟩ | ⟨rfl, rfl⟩ | ⟨rfl, rfl⟩ | ⟨rfl, rfl⟩ <;>
      simp [h1, h2, h3, h4]

/-- C10: `format_file_size` is total on every byte count: the division
loop terminates with a unit index never exceeding 4 (guard
`i < len(units) - 1`), the chosen unit is always one of B, KB, MB, GB,
TB even for arbitrarily large inputs, and 0 yields exactly `"0 B"`. -/
theorem claim_C10 :
    (∀ bytes : Nat, unitIndex bytes ≤ 4) ∧
    (∀ bytes : Nat, sizeUnits.getD (unitIndex bytes) "" ∈ sizeUnits) ∧
    format_file_size 0 = "0 B" ∧
    (∀ bytes : Nat, ∃ v u, format_file_size bytes = v ++ " " ++ u ∧ u ∈ sizeUnits) := by
  have hmem : ∀ bytes : Nat, sizeUnits.getD (unitIndex bytes) "" ∈ sizeUnits := by
    intro bytes
    have h := unitIndex_le bytes
    set i := unitIndex bytes with hi
    clear_value i
    interval_cases i <;> decide
  refine ⟨unitIndex_le, hmem, rfl, ?_⟩
  intro bytes
  by_cases h0 : bytes = 0
  · exact ⟨"0", "B", by rw [h0]; rfl, by decide⟩
  · unfold format_file_size
    rw [if_neg h0]
    by_cases h3 : 3 ≤ unitIndex bytes
    · exact ⟨twoDecN bytes (1024 ^ unitIndex bytes), sizeUnits.getD (unitIndex bytes) "",
        by rw [if_pos h3], hmem bytes⟩
    · exact ⟨toString (bytes / 1024 ^ unitIndex bytes), sizeUnits.getD (unitIndex bytes) "",
        by rw [if_neg h3], hmem bytes⟩

/- ### Dispatcher lemmas -/

lemma readChars_length (s : String) (n : Nat) :
    (readChars s n).length = min n s.length := by
  show (s.data.take n).length = min n s.data.length
  exact List.length_take n s.data

lemma generic_text_result (f : PyFile) (e full : String)
    (ht : get_file_type e = "text") (h1 : e ≠ "json") (h2 : e ≠ "csv") (h3 : e ≠ "xml")
    (hok : f.text = .ok full) :
    get_file_preview f e = .text (readChars full 10000) e := by
  simp [get_file_preview, preview_body, ht, get_text_preview, hok, h1, h2, h3]

lemma text_unicode_binary (f : PyFile) (e : String)
    (ht : get_file_type e = "text") (hu : f.text = .unicodeErr) :
    get_file_preview f e = .binary := by
  simp [get_file_preview, preview_body, ht, get_text_preview, hu]

lemma longText_length : longText.length = 50000 := by
  show (List.replicate 50000 'a').length = 50000
  rw [List.length_replicate]

/- ### Claim theorems: dispatcher, text and CSV decoders, route -/

/-- C1: the dispatcher `get_file_preview` returns exactly one
`PreviewResult` for every file and extension; any exception escaping a
decoder is caught at the dispatcher boundary and converted to an `Error`
result, and invalid UTF-8 under a text extension yields the binary
placeholder rather than a raw fault. -/
theorem claim_C1 :
    (∀ (file : PyFile) (ext : String), ∃! r : PreviewResult, get_file_preview file ext = r) ∧
    (∀ (file : PyFile) (ext msg : String),
      preview_body file ext = .error msg →
      get_file_preview file ext = .error ("Error generating preview: " ++ msg)) ∧
    (∀ (file : PyFile) (ext : String),
      get_file_type ext = "text" → file.text = .unicodeErr →
      get_file_preview file ext = .binary) := by
  refine ⟨fun f e => ⟨get_file_preview f e, rfl, fun y hy => hy.symm⟩, ?_,
    fun f e => text_unicode_binary f e⟩
  intro f e m h
  unfold get_file_preview
  rw [h]

theorem claim_C1_witness :
    get_file_preview errFile "txt" = .error ("Error generating preview: " ++ "boom") ∧
    get_file_preview binFile "md" = .binary :=
  ⟨claim_C1.2.1 errFile "txt" "boom" rfl,
   claim_C1.2.2 binFile "md" (by decide) rfl⟩

/-- C4: the generic text decoder (txt, md, html, css, js, py, r) reads
at most 10,000 characters and returns them as a `Text` result — a
50,000-character file yields a preview of exactly 10,000 — and
undecodable bytes yield the binary placeholder rather than an `Error`. -/
theorem claim_C4 :
    (∀ (f : PyFile) (e full : String),
      e ∈ genericTextExts → f.text = .ok full →
      get_file_preview f e = .text (readChars full 10000) e ∧
      (readChars full 10000).length = min 10000 full.length) ∧
    (∀ (f : PyFile) (e : String),
      e ∈ genericTextExts → f.text = .unicodeErr →
      get_file_preview f e = .binary) := by
  constructor
  · intro f e full he hok
    have hfacts : get_file_type e = "text" ∧ e ≠ "json" ∧ e ≠ "csv" ∧ e ≠ "xml" := by
      fin_cases he <;> exact ⟨by decide, by decide, by decide, by decide⟩
    obtain ⟨ht, h1, h2, h3⟩ := hfacts
    exact ⟨generic_text_result f e full ht h1 h2 h3 hok, readChars_length full 10000⟩
  · intro f e he hu
    have ht : get_file_type e = "text" := by fin_cases he <;> decide
    exact text_unicode_binary f e ht hu

theorem claim_C4_witness :
    get_file_preview longFile "txt" = .text (readChars longText 10000) "txt" ∧
    (readChars longText 10000).length = 10000 := by
  have h := claim_C4.1 longFile "txt" longText (by decide) rfl
  refine ⟨h.1, ?_⟩
  rw [h.2, longText_length]
  omega

/-- C5: the CSV decoder caps data rows at 100 on every tier: pandas
first (typed cells, header as columns, `nrows=100` then `head(100)`),
then the `csv`-module fallback (string cells, same cap), then plain text
of the first 10,000 characters with the extension overridden to
`"txt"`.  A 500-row input yields exactly 100 data rows. -/
theorem claim_C5 :
    (∀ (f : PyFile) (full : String) (cols : List String) (data : List (List Cell)),
      f.text = .ok full → f.pdCsv = .ok (cols, data) →
      get_file_preview f "csv" = .csv cols (data.take 100) ∧
      (data.take 100).length = min 100 data.length) ∧
    (∀ (f : PyFile) (full err : String) (hd : List String) (t : List (List String)),
      f.text = .ok full → f.pdCsv = .error err → f.csvLines = .ok (hd :: t) →
      get_file_preview f "csv" = .csv hd ((t.take 100).map (fun r => r.map Cell.s)) ∧
      ((t.take 100).map (fun r => r.map Cell.s)).length ≤ 100) ∧
    (∀ (f : PyFile) (full err err2 : String),
      f.text = .ok full → f.pdCsv = .error err → f.csvLines = .error err2 →
      get_file_preview f "csv" = .text (readChars full 10000) "txt") := by
  have ht : get_file_type "csv" = "text" := by decide
  refine ⟨?_, ?_, ?_⟩
  · intro f full cols data hok hpd
    constructor
    · simp [get_file_preview, preview_body, ht, get_text_preview, hok, hpd, List.take_take]
    · exact List.length_take 100 data
  · intro f full err hd t hok hpd hcsv
    constructor
    · simp [get_file_preview, preview_body, ht, get_text_preview, hok, hpd, hcsv]
    · rw [List.length_map, List.length_take]
      omega
  · intro f full err err2 hok hpd hcsv
    simp [get_file_preview, preview_body, ht, get_text_preview, hok, hpd, hcsv]

theorem claim_C5_witness :
    get_file_preview csvFile "csv" = .csv ["h1", "h2"] (row500.take 100) ∧
    (row500.take 100).length = 100 := by
  have h := claim_C5.1 csvFile "h1,h2" ["h1", "h2"] row500 rfl rfl
  refine ⟨h.1, ?_⟩
  rw [h.2]
  show min 100 (List.replicate 500 [Cell.n 7]).length = 100
  rw [List.length_replicate]
  omega

/-- C3 (amended): a preview request whose known size exceeds the
104,857,600-byte ceiling short-circuits before any decode to a
`too_large` placeholder whose message embeds `format_file_size`
(iterated division by 1024 through B, KB, MB, GB, TB; GB and TB with two
decimals, smaller units as integers); a 200,000,000-byte file with no
`knownSizeBytes` supplied yields type `too_large`, size 200000000, and a
message stating the file is 190 MB (200,000,000 bytes is 190.73 MiB,
truncated to an integer for the MB unit). -/
theorem claim_C3 :
    (∀ (file : PyFile) (ext : String) (headSize : Nat),
      MAX_PREVIEW_SIZE < headSize →
      get_file_route file ext none headSize =
        .tooLarge ("This file is " ++ format_file_size headSize ++
          ", which exceeds the preview size limit.") headSize) ∧
    (∀ (file : PyFile) (ext : String),
      get_file_route file ext none 200000000 =
        .tooLarge "This file is 190 MB, which exceeds the preview size limit."
          200000000) := by
  have hgen : ∀ (file : PyFile) (ext : String) (headSize : Nat),
      MAX_PREVIEW_SIZE < headSize →
      get_file_route file ext none headSize =
        .tooLarge ("This file is " ++ format_file_size headSize ++
          ", which exceeds the preview size limit.") headSize := by
    intro file ext hs h
    have h0 : 0 < hs := lt_of_le_of_lt (Nat.zero_le _) h
    simp [get_file_route, h, h0]
  refine ⟨hgen, fun file ext => ?_⟩
  rw [hgen file ext 200000000 (by decide)]
  have hfmt : format_file_size 200000000 = "190 MB" := by decide
  rw [hfmt]
  decide

theorem claim_C3_witness :
    get_file_route defaultFile "txt" none 104857601 =
      .tooLarge ("This file is " ++ format_file_size 104857601 ++
        ", which exceeds the preview size limit.") 104857601 :=
  claim_C3.1 defaultFile "txt" 104857601 (by decide)

theorem claim_C3_counterexample :
    get_file_route defaultFile "bin" none 200000000 =
      RouteResult.tooLarge "This file is 190 MB, which exceeds the preview size limit."
        200000000 ∧
    get_file_route defaultFile "bin" none 200000000 ≠
      RouteResult.tooLarge "This file is 200.00 MB, which exceeds the preview size limit."
        200000000 := by
  constructor <;> decide

/- ### Image decoder lemmas -/

lemma image_dispatch (f : PyFile) (e : String) (ht : get_file_type e = "image") :
    get_file_preview f e = get_image_preview f e := by
  simp [get_file_preview, preview_body, ht]

lemma resizeImg_format (img : PILImage) : (resizeImg img).format = img.format := by
  unfold resizeImg; split <;> rfl

lemma thumbnail_long_side (w h : Nat) (hgt : 800 < w ∨ 800 < h) :
    (h ≤ w → (thumbnail w h).1 = 800 ∧ (thumbnail w h).2 ≤ 800 ∧
      2 * w * (thumbnail w h).2 ≤ 2 * (h * 800) + w ∧
      2 * (h * 800) ≤ 2 * w * (thumbnail w h).2 + 2 * w) ∧
    (w ≤ h → (thumbnail w h).2 = 800 ∧ (thumbnail w h).1 ≤ 800 ∧
      2 * h * (thumbnail w h).1 ≤ 2 * (w * 800) + h ∧
      2 * (w * 800) ≤ 2 * h * (thumbnail w h).1 + 2 * h) := by
  have hbig : ¬(w ≤ 800 ∧ h ≤ 800) := by omega
  constructor
  · intro hhw
    have hw : 800 < w := by omega
    have hw0 : 0 < 2 * w := by omega
    have hdef1 : (thumbnail w h).1 = 800 := by
      unfold thumbnail; rw [if_neg hbig, if_pos hhw]
    have hdef2 : (thumbnail w h).2 = (2 * (h * 800) + w) / (2 * w) := by
      unfold thumbnail rdiv; rw [if_neg hbig, if_pos hhw]
    have hq := Nat.div_add_mod (2 * (h * 800) + w) (2 * w)
    have hr := Nat.mod_lt (2 * (h * 800) + w) hw0
    have h801 : 2 * (h * 800) + w < 801 * (2 * w) := by nlinarith
    have h801 := (Nat.div_lt_iff_lt_mul hw0).mpr h801
    refine ⟨hdef1, ?_, ?_, ?_⟩ <;> rw [hdef2] <;> omega
  · intro hwh
    by_cases hhw : h ≤ w
    · have hwe : w = h := by omega
      subst hwe
      have hw : 800 < w := by omega
      have hw0 : 0 < 2 * w := by omega
      have hdef1 : (thumbnail w w).1 = 800 := by
        unfold thumbnail; rw [if_neg hbig, if_pos hhw]
      have hdef2 : (thumbnail w w).2 = (2 * (w * 800) + w) / (2 * w) := by
        unfold thumbnail rdiv; rw [if_neg hbig, if_pos hhw]
      have heq : (2 * (w * 800) + w) / (2 * w) = 800 := by
        have h1 : 2 * (w * 800) + w < 801 * (2 * w) := by nlinarith
        have h1 := (Nat.div_lt_iff_lt_mul hw0).mpr h1
        have h2 : 800 * (2 * w) ≤ 2 * (w * 800) + w := by nlinarith
        have h2 := (Nat.le_div_iff_mul_le hw0).mpr h2
        omega
      rw [hdef2, heq] at *
      refine ⟨rfl, by rw [hdef1], ?_, ?_⟩ <;> rw [hdef1] <;> nlinarith
    · have hh : 800 < h := by omega
      have hh0 : 0 < 2 * h := by omega
      have hdef2 : (thumbnail w h).2 = 800 := by
        unfold thumbnail; rw [if_neg hbig, if_neg hhw]
      have hdef1 : (thumbnail w h).1 = (2 * (w * 800) + h) / (2 * h) := by
        unfold thumbnail rdiv; rw [if_neg hbig, if_neg hhw]
      have hq := Nat.div_add_mod (2 * (w * 800) + h) (2 * h)
      have hr := Nat.mod_lt (2 * (w * 800) + h) hh0
      have h801 : 2 * (w * 800) + h < 801 * (2 * h) := by nlinarith
      have h801 := (Nat.div_lt_iff_lt_mul hh0).mpr h801
      refine ⟨hdef2, ?_, ?_, ?_⟩ <;> rw [hdef1] <;> omega

/-- C6: an image with a side over 800px is downscaled preserving aspect
ratio so the longer side equals 800 (the shorter side is the rounded
scaled value: `2*w*out ≤ 2*(h*800)+w ≤ 2*w*out + 2*w`); a 2000×1000
source yields 800×400; the output is re-encoded in the source format
with PNG as fallback and the mime type derives from the format
lower-cased; tif and tiff are always re-encoded as PNG with mime exactly
`image/png`, and a tiff decode failure yields an `Error` with a
TIFF-specific message. -/
theorem claim_C6 :
    (∀ w h : Nat, 800 < w ∨ 800 < h →
      (h ≤ w → (thumbnail w h).1 = 800 ∧ (thumbnail w h).2 ≤ 800 ∧
        2 * w * (thumbnail w h).2 ≤ 2 * (h * 800) + w ∧
        2 * (h * 800) ≤ 2 * w * (thumbnail w h).2 + 2 * w) ∧
      (w ≤ h → (thumbnail w h).2 = 800 ∧ (thumbnail w h).1 ≤ 800 ∧
        2 * h * (thumbnail w h).1 ≤ 2 * (w * 800) + h ∧
        2 * (w * 800) ≤ 2 * h * (thumbnail w h).1 + 2 * h)) ∧
    thumbnail 2000 1000 = (800, 400) ∧
    (∀ (f : PyFile) (e : String) (img : PILImage),
      ["tif", "tiff"].contains (lowerStr e) = true → f.image = .ok img →
      get_file_preview f e = .image ((resizeImg img).save "PNG") "image/png") ∧
    (∀ (f : PyFile) (e msg : String),
      ["tif", "tiff"].contains (lowerStr e) = true → f.image = .error msg →
      get_file_preview f e = .error ("Error processing TIF/TIFF file: " ++ msg)) ∧
    (∀ (f : PyFile) (e : String) (img : PILImage),
      get_file_type e = "image" → ["tif", "tiff"].contains (lowerStr e) = false →
      f.image = .ok img →
      get_file_preview f e =
        .image ((resizeImg img).save (img.format.getD "PNG"))
          ("image/" ++ (match img.format with | some fm => lowerStr fm | none => "png"))) := by
  have htif_type : ∀ e : String, ["tif", "tiff"].contains (lowerStr e) = true →
      get_file_type e = "image" := by
    intro e hc
    have hmem : lowerStr e ∈ imageExts := by
      have h2 := List.elem_iff.mp hc
      simp only [List.mem_cons, List.not_mem_nil, or_false] at h2
      rcases h2 with heq | heq <;> rw [heq] <;> decide
    rw [get_file_type_eq]
    exact lookup_image _ hmem
  refine ⟨thumbnail_long_side, by decide, ?_, ?_, ?_⟩
  · intro f e img hc hok
    rw [image_dispatch f e (htif_type e hc)]
    unfold get_image_preview
    rw [hc]
    simp [hok]
  · intro f e msg hc herr
    rw [image_dispatch f e (htif_type e hc)]
    unfold get_image_preview
    rw [hc]
    simp [herr]
  · intro f e img ht hc hok
    rw [image_dispatch f e ht]
    unfold get_image_preview
    rw [hc]
    simp [hok, resizeImg_format]

theorem claim_C6_witness :
    get_file_preview tifFile "tif" = .image ((resizeImg tifImage).save "PNG") "image/png" ∧
    get_file_preview tifErrFile "TIFF" =
      .error ("Error processing TIF/TIFF file: " ++ "bad tiff") ∧
    get_file_preview defaultFile "jpg" =
      .image ((resizeImg someImage).save (someImage.format.getD "PNG"))
        ("image/" ++
          (match someImage.format with | some fm => lowerStr fm | none => "png")) ∧
    (thumbnail 2000 1000).1 = 800 :=
  ⟨claim_C6.2.2.1 tifFile "tif" tifImage (by decide) rfl,
   claim_C6.2.2.2.1 tifErrFile "TIFF" "bad tiff" (by decide) rfl,
   claim_C6.2.2.2.2 defaultFile "jpg" someImage (by decide) (by decide) rfl,
   ((claim_C6.1 2000 1000 (Or.inl (by omega))).1 (by omega)).1⟩

/-- C8 (amended): classification is case-insensitive and the empty
extension classifies as other without failing; category dispatch is
case-insensitive and image handling is fully case-insensitive, but the
format-specific sub-branches compare the raw extension case-sensitively:
generic text results echo the raw extension (so upper-cased extensions
produce a different result value), and an upper-cased document extension
falls through to the unsupported placeholder. -/
theorem claim_C8 :
    (∀ (e : String) (s : Option Nat),
      get_file_type e = get_file_type (lowerStr e) ∧
      is_supported_type e s = is_supported_type (lowerStr e) s) ∧
    (get_file_type "" = "other" ∧ is_supported_type "" none = false) ∧
    (∀ (f : PyFile) (e : String), get_file_type e = "image" →
      get_file_preview f e = get_file_preview f (lowerStr e)) ∧
    (∀ (f : PyFile) (e full : String),
      get_file_type e = "text" → lowerStr e ∉ (["json", "csv", "xml"] : List String) →
      f.text = .ok full →
      get_file_preview f e = .text (readChars full 10000) e ∧
      get_file_preview f (lowerStr e) = .text (readChars full 10000) (lowerStr e)) ∧
    (∀ (f : PyFile) (e : String), get_file_type e = "document" →
      e ≠ "docx" → e ≠ "xlsx" → e ≠ "pdf" →
      get_file_preview f e = .unsupported e) := by
  have htype_lower : ∀ e : String, get_file_type e = get_file_type (lowerStr e) := by
    intro e
    rw [get_file_type_eq, get_file_type_eq, lowerStr_idem]
  refine ⟨?_, ⟨rfl, rfl⟩, ?_, ?_, ?_⟩
  · intro e s
    refine ⟨htype_lower e, ?_⟩
    simp only [is_supported_type, lowerStr_idem]
  · intro f e ht
    have ht2 : get_file_type (lowerStr e) = "image" := by rw [← htype_lower e]; exact ht
    rw [image_dispatch f e ht, image_dispatch f _ ht2]
    unfold get_image_preview
    rw [lowerStr_idem]
  · intro f e full ht hspec hok
    have ht2 : get_file_type (lowerStr e) = "text" := by rw [← htype_lower e]; exact ht
    have h1 : e ≠ "json" := fun heq => hspec (by rw [heq]; decide)
    have h2 : e ≠ "csv" := fun heq => hspec (by rw [heq]; decide)
    have h3 : e ≠ "xml" := fun heq => hspec (by rw [heq]; decide)
    have h1' : lowerStr e ≠ "json" := fun heq => hspec (by rw [heq]; decide)
    have h2' : lowerStr e ≠ "csv" := fun heq => hspec (by rw [heq]; decide)
    have h3' : lowerStr e ≠ "xml" := fun heq => hspec (by rw [heq]; decide)
    exact ⟨generic_text_result f e full ht h1 h2 h3 hok,
           generic_text_result f (lowerStr e) full ht2 h1' h2' h3' hok⟩
  · intro f e ht h1 h2 h3
    simp [get_file_preview, preview_body, ht, h1, h2, h3]

theorem claim_C8_witness :
    get_file_preview defaultFile "JPG" = get_file_preview defaultFile "jpg" ∧
    get_file_preview defaultFile "MD" = .text (readChars "hello" 10000) "MD" ∧
    get_file_preview defaultFile "DOCX" = .unsupported "DOCX" :=
  ⟨claim_C8.2.2.1 defaultFile "JPG" (by decide),
   (claim_C8.2.2.2.1 defaultFile "MD" "hello" (by decide) (by decide) rfl).1,
   claim_C8.2.2.2.2 defaultFile "DOCX" (by decide) (by decide) (by decide) (by decide)⟩

theorem claim_C8_counterexample :
    get_file_preview defaultFile "TXT" ≠ get_file_preview defaultFile "txt" := by
  decide

/- ### JSON lemmas: digits and numbers -/

lemma digitChar_isDigit (k : Nat) : (digitChar k).isDigit = true := by
  unfold digitChar
  split <;> decide

lemma digitVal_digitChar (k : Nat) (h : k < 10) : digitVal (digitChar k) = k := by
  interval_cases k <;> decide

lemma natToDigitsAux_ne_nil (f n : Nat) (h : n < f) : natToDigitsAux f n ≠ [] := by
  cases f with
  | zero => omega
  | succ f =>
    unfold natToDigitsAux
    split
    · simp
    · simp

lemma natToDigitsAux_digits (f : Nat) :
    ∀ n, n < f → ∀ c ∈ natToDigitsAux f n, c.isDigit = true := by
  induction f with
  | zero => omega
  | succ f ih =>
    intro n h c hc
    unfold natToDigitsAux at hc
    split at hc
    · simp at hc
      rw [hc]
      exact digitChar_isDigit n
    · rw [List.mem_append] at hc
      have hdiv : n / 10 < n := Nat.div_lt_self (by omega) (by omega)
      rcases hc with hc | hc
      · exact ih (n / 10) (by omega) c hc
      · simp at hc
        rw [hc]
        exact digitChar_isDigit _

lemma foldDigits_append (l : List Char) (c : Char) :
    foldDigits (l ++ [c]) = 10 * foldDigits l + digitVal c := by
  simp [foldDigits, List.foldl_append]

lemma foldDigits_natToDigitsAux (f : Nat) :
    ∀ n, n < f → foldDigits (natToDigitsAux f n) = n := by
  induction f with
  | zero => omega
  | succ f ih =>
    intro n h
    unfold natToDigitsAux
    split
    · next h10 =>
      show foldDigits [digitChar n] = n
      have hv := digitVal_digitChar n h10
      simp [foldDigits]
      omega
    · next h10 =>
      have hdiv : n / 10 < n := Nat.div_lt_self (by omega) (by omega)
      rw [foldDigits_append, ih (n / 10) (by omega)]
      have hv := digitVal_digitChar (n % 10) (Nat.mod_lt n (by omega))
      rw [hv]
      omega

lemma natToDigits_ne_nil (n : Nat) : natToDigits n ≠ [] :=
  natToDigitsAux_ne_nil _ _ (by omega)

lemma natToDigits_digits (n : Nat) : ∀ c ∈ natToDigits n, c.isDigit = true :=
  natToDigitsAux_digits _ _ (by omega)

lemma foldDigits_natToDigits (n : Nat) : foldDigits (natToDigits n) = n :=
  foldDigits_natToDigitsAux _ _ (by omega)

lemma natToDigits_head (n : Nat) :
    ∃ c t, natToDigits n = c :: t ∧ c.isDigit = true := by
  cases h : natToDigits n with
  | nil => exact absurd h (natToDigits_ne_nil n)
  | cons c t => exact ⟨c, t, rfl, natToDigits_digits n c (h ▸ List.mem_cons_self c t)⟩

lemma isDigit_ne (c : Char) (h : c.isDigit = true) :
    c ≠ 'n' ∧ c ≠ 't' ∧ c ≠ 'f' ∧ c ≠ '"' ∧ c ≠ '[' ∧ c ≠ '\x7b' ∧ c ≠ '-' ∧
      c ≠ ']' ∧ c ≠ '\x7d' ∧ c ≠ ',' := by
  refine ⟨?_, ?_, ?_, ?_, ?_, ?_, ?_, ?_, ?_, ?_⟩ <;>
    (rintro rfl; exact absurd h (by decide))

lemma spanDigits_append (ds rest : List Char) (hd : ∀ c ∈ ds, c.isDigit = true)
    (hr : goodRest rest) : spanDigits (ds ++ rest) = (ds, rest) := by
  induction ds with
  | nil =>
    cases rest with
    | nil => rfl
    | cons c t =>
      unfold goodRest at hr
      simp [spanDigits, hr]
  | cons d ds ih =>
    have hdd := hd d (List.mem_cons_self _ _)
    simp [spanDigits, hdd, ih (fun c hc => hd c (List.mem_cons_of_mem _ hc))]

lemma parseNat?_append (ds rest : List Char) (hne : ds ≠ [])
    (hd : ∀ c ∈ ds, c.isDigit = true) (hr : goodRest rest) :
    parseNat? (ds ++ rest) = some (foldDigits ds, rest) := by
  unfold parseNat?
  rw [spanDigits_append ds rest hd hr]
  cases ds with
  | nil => exact absurd rfl hne
  | cons d t => rfl

lemma parseNumber_intRepr (n : Int) (rest : List Char) (hr : goodRest rest) :
    parseNumber (intRepr n ++ rest) = some (n, rest) := by
  unfold intRepr
  by_cases hn : n < 0
  · rw [if_pos hn]
    show parseNumber ('-' :: (natToDigits n.natAbs ++ rest)) = _
    simp only [parseNumber, if_true]
    rw [
      parseNat?_append _ _ (natToDigits_ne_nil _) (natToDigits_digits _) hr]
    simp [foldDigits_natToDigits]
    rw [abs_of_neg hn, neg_neg]
  · rw [if_neg hn]
    obtain ⟨c, t, hct, hcd⟩ := natToDigits_head n.natAbs
    rw [hct]
    show parseNumber (c :: (t ++ rest)) = _
    simp only [parseNumber]
    have hcne := (isDigit_ne c hcd).2.2.2.2.2.2.1
    rw [if_neg hcne]
    show Option.map (fun p => ((p.1 : Int), p.2)) (parseNat? ((c :: t) ++ rest)) = _
    rw [← hct,
      parseNat?_append _ _ (natToDigits_ne_nil _) (natToDigits_digits _) hr]
    simp [foldDigits_natToDigits]
    exact le_of_not_lt hn

/- ### JSON lemmas: string bodies and whitespace -/

lemma parseStrBody_append (s rest : List Char) (hc : cleanL s) :
    parseStrBody (s ++ '"' :: rest) = some (s, rest) := by
  induction s with
  | nil => simp [parseStrBody]
  | cons c t ih =>
    obtain ⟨h1, h2, h3⟩ := hc c (List.mem_cons_self _ _)
    have hbad : ¬(c = '\\' ∨ c.toNat < 32) := by
      push_neg
      exact ⟨h2, by omega⟩
    have ih' := ih (fun x hx => hc x (List.mem_cons_of_mem _ hx))
    simp [parseStrBody, h1, hbad, ih']

lemma parseStrBody_clean :
    ∀ (cs s r : List Char), parseStrBody cs = some (s, r) → cleanL s := by
  intro cs
  induction cs with
  | nil =>
    intro s r h
    simp [parseStrBody] at h
  | cons c t ih =>
    intro s r h
    unfold parseStrBody at h
    split at h
    · next =>
      simp only [Option.some.injEq, Prod.mk.injEq] at h
      obtain ⟨h1, h2⟩ := h
      subst h1
      exact fun x hx => absurd hx (List.not_mem_nil x)
    · next hq =>
      split at h
      · exact absurd h (by simp)
      · next hbad =>
        cases hp : parseStrBody t with
        | none =>
          rw [hp] at h
          simp at h
        | some p =>
          rw [hp] at h
          simp only [Option.map_some', Option.some.injEq, Prod.mk.injEq] at h
          obtain ⟨h1, h2⟩ := h
          subst h1
          push_neg at hbad
          intro x hx
          rcases List.mem_cons.mp hx with rfl | hx
          · exact ⟨hq, hbad.1, by omega⟩
          · exact ih p.1 p.2 hp x hx

lemma skipWs_ws_append (ws t : List Char) (h : ∀ c ∈ ws, isWsChar c = true) :
    skipWs (ws ++ t) = skipWs t := by
  induction ws with
  | nil => rfl
  | cons c cs ih =>
    have hc := h c (List.mem_cons_self _ _)
    simp [skipWs, hc, ih (fun x hx => h x (List.mem_cons_of_mem _ hx))]

lemma skipWs_not_ws (c : Char) (t : List Char) (h : isWsChar c = false) :
    skipWs (c :: t) = c :: t := by
  simp [skipWs, h]

lemma indentChars_ws (n : Nat) : ∀ c ∈ indentChars n, isWsChar c = true := by
  intro c hc
  rw [List.eq_of_mem_replicate hc]
  decide

lemma parseV_ws (f : Nat) (ws t : List Char) (h : ∀ c ∈ ws, isWsChar c = true) :
    parseV f (ws ++ t) = parseV f t := by
  cases f with
  | zero => rfl
  | succ f =>
    show (match skipWs (ws ++ t) with
      | [] => none
      | c :: rest => _) = _
    rw [skipWs_ws_append ws t h]
    rfl

lemma parseItems_ws (f : Nat) (ws t : List Char) (h : ∀ c ∈ ws, isWsChar c = true) :
    parseItems f (ws ++ t) = parseItems f t := by
  cases f with
  | zero => rfl
  | succ f =>
    show (parseV f (ws ++ t)).bind _ = _
    rw [parseV_ws f ws t h]
    rfl

lemma parseMembers_ws (f : Nat) (ws t : List Char) (h : ∀ c ∈ ws, isWsChar c = true) :
    parseMembers f (ws ++ t) = parseMembers f t := by
  cases f with
  | zero => rfl
  | succ f =>
    show (match skipWs (ws ++ t) with
      | '"' :: rest => _
      | _ => none) = _
    rw [skipWs_ws_append ws t h]
    rfl

lemma ws_char_cases (c : Char) (h : isWsChar c = true) :
    c = ' ' ∨ c = '\t' ∨ c = '\n' ∨ c = '\r' := by
  simp [isWsChar] at h
  tauto

lemma goodHead_not_ws (c : Char) (h : goodHead c) : isWsChar c = false := by
  cases hw : isWsChar c
  · rfl
  · exfalso
    rcases ws_char_cases c hw with rfl | rfl | rfl | rfl <;>
      rcases h with h | h | h | h | h | h | h | h <;>
        exact absurd h (by decide)

lemma goodHead_ne_close (c : Char) (h : goodHead c) :
    c ≠ ']' ∧ c ≠ '\x7d' ∧ c ≠ ',' ∧ c ≠ ':' := by
  rcases h with rfl | rfl | rfl | rfl | rfl | rfl | rfl | hd
  · exact ⟨by decide, by decide, by decide, by decide⟩
  · exact ⟨by decide, by decide, by decide, by decide⟩
  · exact ⟨by decide, by decide, by decide, by decide⟩
  · exact ⟨by decide, by decide, by decide, by decide⟩
  · exact ⟨by decide, by decide, by decide, by decide⟩
  · exact ⟨by decide, by decide, by decide, by decide⟩
  · exact ⟨by decide, by decide, by decide, by decide⟩
  · refine ⟨?_, ?_, ?_, ?_⟩ <;> (rintro rfl; exact absurd hd (by decide))

/- ### JSON lemmas: printed heads, object building, sizes -/

lemma dumpJ_head (v : Json) (d : Nat) : ∃ c t, dumpJ v d = c :: t ∧ goodHead c := by
  cases v with
  | null => exact ⟨'n', _, rfl, Or.inl rfl⟩
  | bool b =>
    cases b with
    | true => exact ⟨'t', _, rfl, Or.inr (Or.inl rfl)⟩
    | false => exact ⟨'f', _, rfl, Or.inr (Or.inr (Or.inl rfl))⟩
  | num n =>
    show ∃ c t, intRepr n = c :: t ∧ goodHead c
    unfold intRepr
    by_cases hn : n < 0
    · rw [if_pos hn]
      exact ⟨'-', _, rfl, Or.inr (Or.inr (Or.inr (Or.inr (Or.inr (Or.inr (Or.inl rfl))))))⟩
    · rw [if_neg hn]
      obtain ⟨c, t, hct, hcd⟩ := natToDigits_head n.natAbs
      exact ⟨c, t, hct,
        Or.inr (Or.inr (Or.inr (Or.inr (Or.inr (Or.inr (Or.inr hcd))))))⟩
  | str s => exact ⟨'"', _, rfl, Or.inr (Or.inr (Or.inr (Or.inl rfl)))⟩
  | arr xs =>
    cases xs with
    | nil => exact ⟨'[', _, rfl, Or.inr (Or.inr (Or.inr (Or.inr (Or.inl rfl))))⟩
    | cons x t => exact ⟨'[', _, rfl, Or.inr (Or.inr (Or.inr (Or.inr (Or.inl rfl))))⟩
  | obj kvs =>
    cases kvs with
    | nil =>
      exact ⟨'\x7b', _, rfl, Or.inr (Or.inr (Or.inr (Or.inr (Or.inr (Or.inl rfl)))))⟩
    | cons kv t =>
      exact ⟨'\x7b', _, rfl, Or.inr (Or.inr (Or.inr (Or.inr (Or.inr (Or.inl rfl)))))⟩

lemma insertKV_not_mem (m : List (String × Json)) (k : String) (v : Json)
    (h : k ∉ m.map Prod.fst) : insertKV m k v = m ++ [(k, v)] := by
  induction m with
  | nil => rfl
  | cons p t ih =>
    obtain ⟨k', v'⟩ := p
    simp only [List.map_cons, List.mem_cons] at h
    push_neg at h
    show (if k' = k then (k', v) :: t else (k', v') :: insertKV t k v) = _
    rw [if_neg (fun heq => h.1 heq.symm), ih h.2]
    rfl

lemma foldl_insertKV (ps : List (String × Json)) :
    ∀ acc, (((acc ++ ps).map Prod.fst).Nodup) →
    ps.foldl (fun m p => insertKV m p.1 p.2) acc = acc ++ ps := by
  induction ps with
  | nil => intro acc _; simp
  | cons p t ih =>
    intro acc h
    obtain ⟨k, v⟩ := p
    rw [List.map_append] at h
    have hk : k ∉ acc.map Prod.fst := by
      intro hmem
      exact (List.nodup_append.mp h).2.2 hmem (List.mem_cons_self _ _)
    show (t.foldl _ (insertKV acc k v)) = _
    rw [insertKV_not_mem acc k v hk]
    have h' : (((acc ++ [(k, v)]) ++ t).map Prod.fst).Nodup := by
      rw [List.append_assoc]
      simpa using h
    rw [ih (acc ++ [(k, v)]) h']
    simp

lemma buildObj_eq_self (ps : List (String × Json))
    (h : (ps.map Prod.fst).Nodup) : buildObj ps = ps := by
  unfold buildObj
  have := foldl_insertKV ps [] (by simpa using h)
  simpa using this

lemma insertKV_keys (m : List (String × Json)) (k : String) (v : Json) :
    (insertKV m k v).map Prod.fst =
      if k ∈ m.map Prod.fst then m.map Prod.fst else m.map Prod.fst ++ [k] := by
  induction m with
  | nil => rfl
  | cons p t ih =>
    obtain ⟨k', v'⟩ := p
    show (if k' = k then (k', v) :: t else (k', v') :: insertKV t k v).map Prod.fst = _
    by_cases hk : k' = k
    · subst hk
      simp
    · rw [if_neg hk]
      simp only [List.map_cons, ih, List.mem_cons]
      have hne : ¬(k = k') := fun heq => hk heq.symm
      by_cases hmem : k ∈ t.map Prod.fst
      · simp [hmem, hne]
      · simp [hmem, hne]

lemma insertKV_nodup (m : List (String × Json)) (k : String) (v : Json)
    (h : (m.map Prod.fst).Nodup) : ((insertKV m k v).map Prod.fst).Nodup := by
  rw [insertKV_keys]
  by_cases hmem : k ∈ m.map Prod.fst
  · simpa [hmem] using h
  · simp only [hmem, if_false]
    simp [List.nodup_append, h, hmem]

lemma insertKV_wfM (m : List (String × Json)) (k : String) (v : Json)
    (hm : wfM m) (hk : cleanL k.data) (hv : wfJ v) : wfM (insertKV m k v) := by
  induction m with
  | nil => exact ⟨hk, hv, trivial⟩
  | cons p t ih =>
    obtain ⟨k', v'⟩ := p
    obtain ⟨hk', hv', ht⟩ := hm
    show wfM (if k' = k then (k', v) :: t else (k', v') :: insertKV t k v)
    by_cases heq : k' = k
    · rw [if_pos heq]
      exact ⟨hk', hv, ht⟩
    · rw [if_neg heq]
      exact ⟨hk', hv', ih ht⟩

lemma buildObj_wf (ps : List (String × Json)) (h : wfM ps) :
    ((buildObj ps).map Prod.fst).Nodup ∧ wfM (buildObj ps) := by
  unfold buildObj
  suffices hgen : ∀ acc, (acc.map Prod.fst).Nodup → wfM acc → wfM ps →
      ((ps.foldl (fun m p => insertKV m p.1 p.2) acc).map Prod.fst).Nodup ∧
        wfM (ps.foldl (fun m p => insertKV m p.1 p.2) acc) by
    exact hgen [] (by simp) trivial h
  clear h
  induction ps with
  | nil => exact fun acc h1 h2 _ => ⟨h1, h2⟩
  | cons p t ih =>
    intro acc h1 h2 hps
    obtain ⟨k, v⟩ := p
    obtain ⟨hk, hv, ht⟩ := hps
    exact ih (insertKV acc k v) (insertKV_nodup acc k v h1)
      (insertKV_wfM acc k v h2 hk hv) ht

lemma sizeJ_pos (v : Json) : 1 ≤ sizeJ v := by
  cases v with
  | null => exact le_refl 1
  | bool b => exact le_refl 1
  | num n => exact le_refl 1
  | str s => exact le_refl 1
  | arr xs => cases xs <;> simp [sizeJ]
  | obj kvs =>
    cases kvs with
    | nil => simp [sizeJ]
    | cons kv t => obtain ⟨k, v⟩ := kv; simp [sizeJ]

lemma sizeItems_pos (l : List Json) (h : l ≠ []) : 1 ≤ sizeItems l := by
  cases l with
  | nil => exact absurd rfl h
  | cons x t => show 1 ≤ 1 + sizeJ x + sizeItems t; omega

lemma sizeMembers_pos (l : List (String × Json)) (h : l ≠ []) : 1 ≤ sizeMembers l := by
  cases l with
  | nil => exact absurd rfl h
  | cons p t => obtain ⟨k, v⟩ := p; show 1 ≤ 1 + sizeJ v + sizeMembers t; omega

/- ### JSON lemmas: one-step parser reductions -/

lemma goodRest_cons (c : Char) (t : List Char) (h : c.isDigit = false) : goodRest (c :: t) := h

lemma goodRest_nil : goodRest [] := trivial

lemma skipWs_cons_ws (c : Char) (t : List Char) (h : isWsChar c = true) :
    skipWs (c :: t) = skipWs t := by
  simp [skipWs, h]

lemma parseV_lbrack (f : Nat) (t : List Char) :
    parseV (f + 1) ('[' :: t) =
      (if headIs (skipWs t) ']' then some (Json.arr [], (skipWs t).tail)
       else (parseItems f t).map (fun p => (Json.arr p.1, p.2))) := rfl

lemma parseV_lbrace (f : Nat) (t : List Char) :
    parseV (f + 1) ('\x7b' :: t) =
      (if headIs (skipWs t) '\x7d' then some (Json.obj [], (skipWs t).tail)
       else (parseMembers f t).map (fun p => (Json.obj (buildObj p.1), p.2))) := rfl

lemma parseV_quote (f : Nat) (t : List Char) :
    parseV (f + 1) ('"' :: t) =
      (parseStrBody t).map (fun p => (Json.str (String.mk p.1), p.2)) := rfl

lemma parseV_dash (f : Nat) (t : List Char) :
    parseV (f + 1) ('-' :: t) =
      (parseNumber ('-' :: t)).map (fun p => (Json.num p.1, p.2)) := rfl

lemma parseV_digit (f : Nat) (c : Char) (t : List Char) (hd : c.isDigit = true) :
    parseV (f + 1) (c :: t) =
      (parseNumber (c :: t)).map (fun p => (Json.num p.1, p.2)) := by
  have hws : isWsChar c = false :=
    goodHead_not_ws c (Or.inr (Or.inr (Or.inr (Or.inr (Or.inr (Or.inr (Or.inr hd)))))))
  have hne := isDigit_ne c hd
  simp only [parseV]
  rw [skipWs_not_ws _ _ hws]
  split
  · next heq => simp at heq
  · next c' rest' heq =>
    obtain ⟨rfl, rfl⟩ : c' = c ∧ rest' = t := by
      injection heq with ha hb
      exact ⟨ha.symm, hb.symm⟩
    rw [if_neg hne.1, if_neg hne.2.1, if_neg hne.2.2.1, if_neg hne.2.2.2.1,
        if_neg hne.2.2.2.2.2.1, if_neg hne.2.2.2.2.1, if_pos (Or.inr hd)]

lemma skipWs_items_head (x : Json) (l' : List Json) (d' : Nat) (suffix : List Char) :
    ∃ c0 t0, skipWs (dumpItems (x :: l') d' ++ suffix) = c0 :: t0 ∧ goodHead c0 := by
  obtain ⟨c0, t0, hct, hgh⟩ := dumpJ_head x d'
  cases l' with
  | nil =>
    refine ⟨c0, t0 ++ suffix, ?_, hgh⟩
    show skipWs ((indentChars (2 * d') ++ dumpJ x d') ++ suffix) = _
    rw [List.append_assoc, skipWs_ws_append _ _ (indentChars_ws _), hct]
    show skipWs (c0 :: (t0 ++ suffix)) = _
    exact skipWs_not_ws _ _ (goodHead_not_ws c0 hgh)
  | cons y ys =>
    refine ⟨c0, t0 ++ ((',' :: '\n' :: dumpItems (y :: ys) d') ++ suffix), ?_, hgh⟩
    show skipWs ((indentChars (2 * d') ++
      (dumpJ x d' ++ (',' :: '\n' :: dumpItems (y :: ys) d'))) ++ suffix) = _
    rw [List.append_assoc, skipWs_ws_append _ _ (indentChars_ws _), List.append_assoc, hct]
    show skipWs (c0 :: (t0 ++ ((',' :: '\n' :: dumpItems (y :: ys) d') ++ suffix))) = _
    exact skipWs_not_ws _ _ (goodHead_not_ws c0 hgh)

lemma skipWs_members_head (k : String) (v : Json) (l' : List (String × Json)) (d' : Nat)
    (suffix : List Char) :
    ∃ t0, skipWs (dumpMembers ((k, v) :: l') d' ++ suffix) = '"' :: t0 := by
  cases l' with
  | nil =>
    refine ⟨(k.data ++ '"' :: ':' :: ' ' :: dumpJ v d') ++ suffix, ?_⟩
    show skipWs ((indentChars (2 * d') ++
      ('"' :: (k.data ++ '"' :: ':' :: ' ' :: dumpJ v d'))) ++ suffix) = _
    rw [List.append_assoc, skipWs_ws_append _ _ (indentChars_ws _)]
    show skipWs ('"' :: ((k.data ++ '"' :: ':' :: ' ' :: dumpJ v d') ++ suffix)) = _
    exact skipWs_not_ws _ _ (by decide)
  | cons kv2 ms =>
    refine ⟨(k.data ++ '"' :: ':' :: ' ' ::
      (dumpJ v d' ++ ',' :: '\n' :: dumpMembers (kv2 :: ms) d')) ++ suffix, ?_⟩
    show skipWs ((indentChars (2 * d') ++
      ('"' :: (k.data ++ '"' :: ':' :: ' ' ::
        (dumpJ v d' ++ ',' :: '\n' :: dumpMembers (kv2 :: ms) d')))) ++ suffix) = _
    rw [List.append_assoc, skipWs_ws_append _ _ (indentChars_ws _)]
    show skipWs ('"' :: ((k.data ++ '"' :: ':' :: ' ' ::
      (dumpJ v d' ++ ',' :: '\n' :: dumpMembers (kv2 :: ms) d')) ++ suffix)) = _
    exact skipWs_not_ws _ _ (by decide)

lemma skipWs_closer (m : Nat) (ch : Char) (hch : isWsChar ch = false) (rest : List Char) :
    skipWs ('\n' :: (indentChars m ++ ch :: rest)) = ch :: rest := by
  rw [skipWs_cons_ws _ _ (by decide), skipWs_ws_append _ _ (indentChars_ws _),
      skipWs_not_ws _ _ hch]

/-- The parser reconsumes everything the printer emits: mutual statement
for values, array items and object members, by induction on the fuel. -/
lemma parse_dump (f : Nat) :
    (∀ (v : Json) (d : Nat) (rest : List Char), wfJ v → sizeJ v ≤ f → goodRest rest →
      parseV f (dumpJ v d ++ rest) = some (v, rest)) ∧
    (∀ (l : List Json) (d m : Nat) (rest : List Char), l ≠ [] → wfL l → sizeItems l ≤ f →
      parseItems f (dumpItems l d ++ '\n' :: (indentChars m ++ ']' :: rest)) =
        some (l, rest)) ∧
    (∀ (kvs : List (String × Json)) (d m : Nat) (rest : List Char), kvs ≠ [] → wfM kvs →
      sizeMembers kvs ≤ f →
      parseMembers f (dumpMembers kvs d ++ '\n' :: (indentChars m ++ '\x7d' :: rest)) =
        some (kvs, rest)) := by
  induction f with
  | zero =>
    refine ⟨?_, ?_, ?_⟩
    · intro v d rest _ hsz _
      exact absurd hsz (by have := sizeJ_pos v; omega)
    · intro l d m rest hne _ hsz
      exact absurd hsz (by have := sizeItems_pos l hne; omega)
    · intro kvs d m rest hne _ hsz
      exact absurd hsz (by have := sizeMembers_pos kvs hne; omega)
  | succ f ih =>
    obtain ⟨ihV, ihI, ihM⟩ := ih
    refine ⟨?_, ?_, ?_⟩
    · -- values
      intro v d rest hwf hsz hrest
      cases v with
      | null => rfl
      | bool b => cases b <;> rfl
      | num n =>
        show parseV (f + 1) (intRepr n ++ rest) = some (.num n, rest)
        by_cases hn : n < 0
        · rw [show intRepr n = '-' :: natToDigits n.natAbs from by
            unfold intRepr; rw [if_pos hn]]
          show parseV (f + 1) ('-' :: (natToDigits n.natAbs ++ rest)) = _
          rw [parseV_dash,
            show '-' :: (natToDigits n.natAbs ++ rest) = intRepr n ++ rest from by
              unfold intRepr; rw [if_pos hn]; rfl,
            parseNumber_intRepr n rest hrest]
          rfl
        · obtain ⟨c, t, hct, hcd⟩ := natToDigits_head n.natAbs
          have hint : intRepr n = c :: t := by unfold intRepr; rw [if_neg hn]; exact hct
          rw [hint]
          show parseV (f + 1) (c :: (t ++ rest)) = _
          rw [parseV_digit f c _ hcd,
            show c :: (t ++ rest) = (c :: t) ++ rest from rfl, ← hint,
            parseNumber_intRepr n rest hrest]
          rfl
      | str s =>
        have hclean : cleanL s.data := hwf
        show parseV (f + 1) (('"' :: (s.data ++ ['"'])) ++ rest) = some (.str s, rest)
        show parseV (f + 1) ('"' :: ((s.data ++ ['"']) ++ rest)) = _
        rw [show (s.data ++ ['"']) ++ rest = s.data ++ '"' :: rest from by simp,
          parseV_quote, parseStrBody_append s.data rest hclean]
        rfl
      | arr xs =>
        cases xs with
        | nil => rfl
        | cons x xs' =>
          have hwl : wfL (x :: xs') := hwf
          have hsz' : sizeItems (x :: xs') ≤ f := by
            have : sizeJ (.arr (x :: xs')) = 1 + sizeItems (x :: xs') := rfl
            omega
          show parseV (f + 1)
            (('[' :: '\n' :: (dumpItems (x :: xs') (d + 1) ++
              '\n' :: (indentChars (2 * d) ++ [']']))) ++ rest) = some (.arr (x :: xs'), rest)
          have hform : ('[' :: '\n' :: (dumpItems (x :: xs') (d + 1) ++
              '\n' :: (indentChars (2 * d) ++ [']']))) ++ rest
              = '[' :: ('\n' :: (dumpItems (x :: xs') (d + 1) ++
                ('\n' :: (indentChars (2 * d) ++ (']' :: rest))))) := by
            simp
          rw [hform, parseV_lbrack]
          obtain ⟨c0, t0, hsk, hgh⟩ :=
            skipWs_items_head x xs' (d + 1)
              ('\n' :: (indentChars (2 * d) ++ (']' :: rest)))
          have hsk2 : skipWs ('\n' :: (dumpItems (x :: xs') (d + 1) ++
              ('\n' :: (indentChars (2 * d) ++ (']' :: rest))))) = c0 :: t0 := by
            rw [skipWs_cons_ws _ _ (by decide)]
            exact hsk
          rw [if_neg (by rw [hsk2]; simp [headIs,
            beq_eq_false_iff_ne.mpr (goodHead_ne_close c0 hgh).1])]
          rw [show ('\n' :: (dumpItems (x :: xs') (d + 1) ++
              ('\n' :: (indentChars (2 * d) ++ (']' :: rest)))))
            = ['\n'] ++ (dumpItems (x :: xs') (d + 1) ++
              ('\n' :: (indentChars (2 * d) ++ (']' :: rest)))) from rfl,
            parseItems_ws f _ _ (by intro ch hch; simp at hch; rw [hch]; rfl),
            ihI (x :: xs') (d + 1) (2 * d) rest (by simp) hwl hsz']
          rfl
      | obj kvs =>
        cases kvs with
        | nil => rfl
        | cons kv kvs' =>
          obtain ⟨hnodup, hwm⟩ : ((kv :: kvs').map Prod.fst).Nodup ∧ wfM (kv :: kvs') := hwf
          obtain ⟨k, v⟩ := kv
          have hsz' : sizeMembers ((k, v) :: kvs') ≤ f := by
            have : sizeJ (.obj ((k, v) :: kvs')) = 1 + sizeMembers ((k, v) :: kvs') := rfl
            omega
          show parseV (f + 1)
            (('\x7b' :: '\n' :: (dumpMembers ((k, v) :: kvs') (d + 1) ++
              '\n' :: (indentChars (2 * d) ++ ['\x7d']))) ++ rest)
            = some (.obj ((k, v) :: kvs'), rest)
          have hform : ('\x7b' :: '\n' :: (dumpMembers ((k, v) :: kvs') (d + 1) ++
              '\n' :: (indentChars (2 * d) ++ ['\x7d']))) ++ rest
              = '\x7b' :: ('\n' :: (dumpMembers ((k, v) :: kvs') (d + 1) ++
                ('\n' :: (indentChars (2 * d) ++ ('\x7d' :: rest))))) := by
            simp
          rw [hform, parseV_lbrace]
          obtain ⟨t0, hsk⟩ :=
            skipWs_members_head k v kvs' (d + 1)
              ('\n' :: (indentChars (2 * d) ++ ('\x7d' :: rest)))
          have hsk2 : skipWs ('\n' :: (dumpMembers ((k, v) :: kvs') (d + 1) ++
              ('\n' :: (indentChars (2 * d) ++ ('\x7d' :: rest))))) = '"' :: t0 := by
            rw [skipWs_cons_ws _ _ (by decide)]
            exact hsk
          rw [if_neg (by rw [hsk2]; simp [headIs])]
          rw [show ('\n' :: (dumpMembers ((k, v) :: kvs') (d + 1) ++
              ('\n' :: (indentChars (2 * d) ++ ('\x7d' :: rest)))))
            = ['\n'] ++ (dumpMembers ((k, v) :: kvs') (d + 1) ++
              ('\n' :: (indentChars (2 * d) ++ ('\x7d' :: rest)))) from rfl,
            parseMembers_ws f _ _ (by intro ch hch; simp at hch; rw [hch]; rfl),
            ihM ((k, v) :: kvs') (d + 1) (2 * d) rest (by simp) hwm hsz']
          simp [buildObj_eq_self _ hnodup]
    · -- items
      intro l d m rest hne hwl hsz
      cases l with
      | nil => exact absurd rfl hne
      | cons x l' =>
        obtain ⟨hwx, hwl'⟩ : wfJ x ∧ wfL l' := hwl
        simp only [parseItems]
        cases l' with
        | nil =>
          have hszx : sizeJ x ≤ f := by
            have : sizeItems [x] = 1 + sizeJ x + sizeItems [] := rfl
            have h0 : sizeItems ([] : List Json) = 0 := rfl
            omega
          have hcs : dumpItems [x] d ++ '\n' :: (indentChars m ++ ']' :: rest)
              = indentChars (2 * d) ++
                (dumpJ x d ++ ('\n' :: (indentChars m ++ ']' :: rest))) := by
            show (indentChars (2 * d) ++ dumpJ x d) ++ _ = _
            rw [List.append_assoc]
          rw [hcs, parseV_ws f _ _ (indentChars_ws _),
            ihV x d _ hwx hszx (goodRest_cons _ _ (by decide))]
          simp only [Option.some_bind]
          rw [skipWs_closer m ']' (by decide) rest]
          rfl
        | cons y ys =>
          have hszx : sizeJ x ≤ f ∧ sizeItems (y :: ys) ≤ f := by
            have : sizeItems (x :: y :: ys) = 1 + sizeJ x + sizeItems (y :: ys) := rfl
            have hp := sizeItems_pos (y :: ys) (by simp)
            omega
          have hcs : dumpItems (x :: y :: ys) d ++ '\n' :: (indentChars m ++ ']' :: rest)
              = indentChars (2 * d) ++ (dumpJ x d ++
                (',' :: '\n' :: (dumpItems (y :: ys) d ++
                  '\n' :: (indentChars m ++ ']' :: rest)))) := by
            show (indentChars (2 * d) ++
              (dumpJ x d ++ (',' :: '\n' :: dumpItems (y :: ys) d))) ++ _ = _
            simp
          rw [hcs, parseV_ws f _ _ (indentChars_ws _),
            ihV x d _ hwx hszx.1 (goodRest_cons _ _ (by decide))]
          simp only [Option.some_bind]
          rw [skipWs_not_ws _ _ (by decide)]
          show (parseItems f ('\n' :: (dumpItems (y :: ys) d ++
            '\n' :: (indentChars m ++ ']' :: rest)))).map (fun p => (x :: p.1, p.2))
            = some (x :: y :: ys, rest)
          rw [show ('\n' :: (dumpItems (y :: ys) d ++
              '\n' :: (indentChars m ++ ']' :: rest)))
            = ['\n'] ++ (dumpItems (y :: ys) d ++
              '\n' :: (indentChars m ++ ']' :: rest)) from rfl,
            parseItems_ws f _ _ (by intro ch hch; simp at hch; rw [hch]; rfl),
            ihI (y :: ys) d m rest (by simp) hwl' hszx.2]
          rfl
    · -- members
      intro kvs d m rest hne hwm hsz
      cases kvs with
      | nil => exact absurd rfl hne
      | cons kv kvs' =>
        obtain ⟨k, v⟩ := kv
        obtain ⟨hkc, hvw, hwm'⟩ : cleanL k.data ∧ wfJ v ∧ wfM kvs' := hwm
        simp only [parseMembers]
        cases kvs' with
        | nil =>
          have hszv : sizeJ v ≤ f := by
            have : sizeMembers [(k, v)] = 1 + sizeJ v + sizeMembers [] := rfl
            have h0 : sizeMembers ([] : List (String × Json)) = 0 := rfl
            omega
          have hsk0 : skipWs (dumpMembers [(k, v)] d ++
              '\n' :: (indentChars m ++ '\x7d' :: rest))
              = '"' :: (k.data ++ '"' ::
                (':' :: ' ' :: (dumpJ v d ++ '\n' :: (indentChars m ++ '\x7d' :: rest)))) := by
            show skipWs ((indentChars (2 * d) ++
              ('"' :: (k.data ++ '"' :: ':' :: ' ' :: dumpJ v d))) ++ _) = _
            rw [List.append_assoc, skipWs_ws_append _ _ (indentChars_ws _)]
            show skipWs ('"' :: ((k.data ++ '"' :: ':' :: ' ' :: dumpJ v d) ++ _)) = _
            rw [skipWs_not_ws _ _ (by decide)]
            simp
          rw [hsk0]
          show (parseStrBody (k.data ++ '"' ::
            (':' :: ' ' :: (dumpJ v d ++ '\n' :: (indentChars m ++ '\x7d' :: rest))))).bind _
            = some ([(k, v)], rest)
          rw [parseStrBody_append _ _ hkc]
          simp only [Option.some_bind]
          rw [skipWs_not_ws _ _ (by decide)]
          show ((parseV f (' ' :: (dumpJ v d ++
            '\n' :: (indentChars m ++ '\x7d' :: rest)))).bind _ :
              Option (List (String × Json) × List Char))
            = some ([(k, v)], rest)
          rw [show (' ' :: (dumpJ v d ++ '\n' :: (indentChars m ++ '\x7d' :: rest)))
              = [' '] ++ (dumpJ v d ++ '\n' :: (indentChars m ++ '\x7d' :: rest)) from rfl,
            parseV_ws f _ _ (by intro ch hch; simp at hch; rw [hch]; rfl),
            ihV v d _ hvw hszv (goodRest_cons _ _ (by decide))]
          simp only [Option.some_bind]
          rw [skipWs_closer m '\x7d' (by decide) rest]
          rfl
        | cons kv2 ms =>
          have hszv : sizeJ v ≤ f ∧ sizeMembers (kv2 :: ms) ≤ f := by
            have : sizeMembers ((k, v) :: kv2 :: ms)
                = 1 + sizeJ v + sizeMembers (kv2 :: ms) := rfl
            have hp := sizeMembers_pos (kv2 :: ms) (by simp)
            omega
          have hsk0 : skipWs (dumpMembers ((k, v) :: kv2 :: ms) d ++
              '\n' :: (indentChars m ++ '\x7d' :: rest))
              = '"' :: (k.data ++ '"' ::
                (':' :: ' ' :: (dumpJ v d ++ ',' :: '\n' :: (dumpMembers (kv2 :: ms) d ++
                  '\n' :: (indentChars m ++ '\x7d' :: rest))))) := by
            show skipWs ((indentChars (2 * d) ++
              ('"' :: (k.data ++ '"' :: ':' :: ' ' ::
                (dumpJ v d ++ ',' :: '\n' :: dumpMembers (kv2 :: ms) d)))) ++ _) = _
            rw [List.append_assoc, skipWs_ws_append _ _ (indentChars_ws _)]
            show skipWs ('"' :: ((k.data ++ '"' :: ':' :: ' ' ::
              (dumpJ v d ++ ',' :: '\n' :: dumpMembers (kv2 :: ms) d)) ++ _)) = _
            rw [skipWs_not_ws _ _ (by decide)]
            simp
          rw [hsk0]
          show (parseStrBody (k.data ++ '"' ::
            (':' :: ' ' :: (dumpJ v d ++ ',' :: '\n' :: (dumpMembers (kv2 :: ms) d ++
              '\n' :: (indentChars m ++ '\x7d' :: rest)))))).bind _
            = some ((k, v) :: kv2 :: ms, rest)
          rw [parseStrBody_append _ _ hkc]
          simp only [Option.some_bind]
          rw [skipWs_not_ws _ _ (by decide)]
          show ((parseV f (' ' :: (dumpJ v d ++ ',' :: '\n' ::
            (dumpMembers (kv2 :: ms) d ++
              '\n' :: (indentChars m ++ '\x7d' :: rest))))).bind _ :
              Option (List (String × Json) × List Char))
            = some ((k, v) :: kv2 :: ms, rest)
          rw [show (' ' :: (dumpJ v d ++ ',' :: '\n' :: (dumpMembers (kv2 :: ms) d ++
              '\n' :: (indentChars m ++ '\x7d' :: rest))))
              = [' '] ++ (dumpJ v d ++ ',' :: '\n' :: (dumpMembers (kv2 :: ms) d ++
                '\n' :: (indentChars m ++ '\x7d' :: rest))) from rfl,
            parseV_ws f _ _ (by intro ch hch; simp at hch; rw [hch]; rfl),
            ihV v d _ hvw hszv.1 (goodRest_cons _ _ (by decide))]
          simp only [Option.some_bind]
          rw [skipWs_not_ws _ _ (by decide)]
          show (parseMembers f ('\n' :: (dumpMembers (kv2 :: ms) d ++
            '\n' :: (indentChars m ++ '\x7d' :: rest)))).map
              (fun p => ((String.mk k.data, v) :: p.1, p.2))
            = some ((k, v) :: kv2 :: ms, rest)
          rw [show ('\n' :: (dumpMembers (kv2 :: ms) d ++
              '\n' :: (indentChars m ++ '\x7d' :: rest)))
            = ['\n'] ++ (dumpMembers (kv2 :: ms) d ++
              '\n' :: (indentChars m ++ '\x7d' :: rest)) from rfl,
            parseMembers_ws f _ _ (by intro ch hch; simp at hch; rw [hch]; rfl),
            ihM (kv2 :: ms) d m rest (by simp) hwm' hszv.2]
          rfl

/-- The fuel measure is dominated by the printed length, so the
`length + 1` fuel `loads` uses always suffices to reconsume a printed
value. -/
lemma size_le_len (F : Nat) :
    (∀ (v : Json) (d : Nat), sizeJ v ≤ F → sizeJ v ≤ (dumpJ v d).length) ∧
    (∀ (l : List Json) (d : Nat), sizeItems l ≤ F →
      sizeItems l ≤ (dumpItems l d).length + 1) ∧
    (∀ (kvs : List (String × Json)) (d : Nat), sizeMembers kvs ≤ F →
      sizeMembers kvs ≤ (dumpMembers kvs d).length + 1) := by
  induction F with
  | zero =>
    refine ⟨?_, ?_, ?_⟩
    · intro v d hsz
      exact absurd hsz (by have := sizeJ_pos v; omega)
    · intro l d hsz
      cases l with
      | nil =>
        have h0 : sizeItems ([] : List Json) = 0 := rfl
        omega
      | cons x t => exact absurd hsz (by have := sizeItems_pos (x :: t) (by simp); omega)
    · intro kvs d hsz
      cases kvs with
      | nil =>
        have h0 : sizeMembers ([] : List (String × Json)) = 0 := rfl
        omega
      | cons p t => exact absurd hsz (by have := sizeMembers_pos (p :: t) (by simp); omega)
  | succ F ih =>
    obtain ⟨ihV, ihI, ihM⟩ := ih
    refine ⟨?_, ?_, ?_⟩
    · intro v d hsz
      cases v with
      | null => show (1 : Nat) ≤ 4; omega
      | bool b => cases b <;> simp [sizeJ, dumpJ]
      | num n =>
        show (1 : Nat) ≤ (intRepr n).length
        unfold intRepr
        have hne := natToDigits_ne_nil n.natAbs
        have hpos := List.length_pos.mpr hne
        split <;> first
          | (simp; omega)
          | simp
      | str s => show (1 : Nat) ≤ ('"' :: (s.data ++ ['"'])).length; simp
      | arr xs =>
        cases xs with
        | nil => show (1 : Nat) ≤ 2; omega
        | cons x t =>
          have h1 : sizeJ (.arr (x :: t)) = 1 + sizeItems (x :: t) := rfl
          have h2 := ihI (x :: t) (d + 1) (by omega)
          show 1 + sizeItems (x :: t) ≤
            ('[' :: '\n' :: (dumpItems (x :: t) (d + 1) ++
              '\n' :: (indentChars (2 * d) ++ [']']))).length
          simp only [List.length_cons, List.length_append]
          omega
      | obj kvs =>
        cases kvs with
        | nil => show (1 : Nat) ≤ 2; omega
        | cons kv t =>
          obtain ⟨k, v⟩ := kv
          have h1 : sizeJ (.obj ((k, v) :: t)) = 1 + sizeMembers ((k, v) :: t) := rfl
          have h2 := ihM ((k, v) :: t) (d + 1) (by omega)
          show 1 + sizeMembers ((k, v) :: t) ≤
            ('\x7b' :: '\n' :: (dumpMembers ((k, v) :: t) (d + 1) ++
              '\n' :: (indentChars (2 * d) ++ ['\x7d']))).length
          simp only [List.length_cons, List.length_append]
          omega
    · intro l d hsz
      cases l with
      | nil =>
        have h0 : sizeItems ([] : List Json) = 0 := rfl
        omega
      | cons x t =>
        cases t with
        | nil =>
          have h1 : sizeItems [x] = 1 + sizeJ x + sizeItems [] := rfl
          have h0 : sizeItems ([] : List Json) = 0 := rfl
          have h2 := ihV x d (by omega)
          show sizeItems [x] ≤ (indentChars (2 * d) ++ dumpJ x d).length + 1
          simp only [List.length_append]
          omega
        | cons y ys =>
          have h1 : sizeItems (x :: y :: ys) = 1 + sizeJ x + sizeItems (y :: ys) := rfl
          have hp := sizeItems_pos (y :: ys) (by simp)
          have h2 := ihV x d (by omega)
          have h3 := ihI (y :: ys) d (by omega)
          show sizeItems (x :: y :: ys) ≤
            (indentChars (2 * d) ++
              (dumpJ x d ++ ',' :: '\n' :: dumpItems (y :: ys) d)).length + 1
          simp only [List.length_append, List.length_cons]
          omega
    · intro kvs d hsz
      cases kvs with
      | nil =>
        have h0 : sizeMembers ([] : List (String × Json)) = 0 := rfl
        omega
      | cons kv t =>
        obtain ⟨k, v⟩ := kv
        cases t with
        | nil =>
          have h1 : sizeMembers [(k, v)] = 1 + sizeJ v + sizeMembers [] := rfl
          have h0 : sizeMembers ([] : List (String × Json)) = 0 := rfl
          have h2 := ihV v d (by omega)
          show sizeMembers [(k, v)] ≤
            (indentChars (2 * d) ++
              ('"' :: (k.data ++ '"' :: ':' :: ' ' :: dumpJ v d))).length + 1
          simp only [List.length_append, List.length_cons]
          omega
        | cons kv2 ms =>
          have h1 : sizeMembers ((k, v) :: kv2 :: ms)
              = 1 + sizeJ v + sizeMembers (kv2 :: ms) := rfl
          have hp := sizeMembers_pos (kv2 :: ms) (by simp)
          have h2 := ihV v d (by omega)
          have h3 := ihM (kv2 :: ms) d (by omega)
          show sizeMembers ((k, v) :: kv2 :: ms) ≤
            (indentChars (2 * d) ++
              ('"' :: (k.data ++ '"' :: ':' :: ' ' ::
                (dumpJ v d ++ ',' :: '\n' :: dumpMembers (kv2 :: ms) d)))).length + 1
          simp only [List.length_append, List.length_cons]
          omega

/-- Everything the parser produces is well-formed: strings need no
escaping and object keys are distinct. -/
lemma parse_wf (f : Nat) :
    (∀ (cs : List Char) (v : Json) (r : List Char),
      parseV f cs = some (v, r) → wfJ v) ∧
    (∀ (cs : List Char) (l : List Json) (r : List Char),
      parseItems f cs = some (l, r) → wfL l) ∧
    (∀ (cs : List Char) (ps : List (String × Json)) (r : List Char),
      parseMembers f cs = some (ps, r) → wfM ps) := by
  induction f with
  | zero =>
    refine ⟨?_, ?_, ?_⟩ <;> (intro cs a r h; simp [parseV, parseItems, parseMembers] at h)
  | succ f ih =>
    obtain ⟨ihV, ihI, ihM⟩ := ih
    refine ⟨?_, ?_, ?_⟩
    · intro cs v r h
      simp only [parseV] at h
      split at h
      · simp at h
      · next c rest heq =>
        split at h
        · -- c = 'n'
          split at h
          · simp only [Option.some.injEq, Prod.mk.injEq] at h
            obtain ⟨h1, _⟩ := h
            rw [← h1]
            trivial
          · simp at h
        · split at h
          · -- c = 't'
            split at h
            · simp only [Option.some.injEq, Prod.mk.injEq] at h
              obtain ⟨h1, _⟩ := h
              rw [← h1]
              trivial
            · simp at h
          · split at h
            · -- c = 'f'
              split at h
              · simp only [Option.some.injEq, Prod.mk.injEq] at h
                obtain ⟨h1, _⟩ := h
                rw [← h1]
                trivial
              · simp at h
            · split at h
              · -- c = '"'
                cases hp : parseStrBody rest with
                | none => rw [hp] at h; simp at h
                | some p =>
                  obtain ⟨ks, r1⟩ := p
                  rw [hp] at h
                  simp only [Option.map_some', Option.some.injEq, Prod.mk.injEq] at h
                  obtain ⟨h1, _⟩ := h
                  rw [← h1]
                  show cleanL ks
                  exact parseStrBody_clean rest ks r1 hp
              · split at h
                · -- c = left brace
                  split at h
                  · simp only [Option.some.injEq, Prod.mk.injEq] at h
                    obtain ⟨h1, _⟩ := h
                    rw [← h1]
                    exact ⟨by simp, trivial⟩
                  · cases hp : parseMembers f rest with
                    | none => rw [hp] at h; simp at h
                    | some p =>
                      obtain ⟨ps, r1⟩ := p
                      rw [hp] at h
                      simp only [Option.map_some', Option.some.injEq, Prod.mk.injEq] at h
                      obtain ⟨h1, _⟩ := h
                      rw [← h1]
                      have hw := ihM rest ps r1 hp
                      obtain ⟨hn, hm⟩ := buildObj_wf ps hw
                      exact ⟨hn, hm⟩
                · split at h
                  · -- c = '['
                    split at h
                    · simp only [Option.some.injEq, Prod.mk.injEq] at h
                      obtain ⟨h1, _⟩ := h
                      rw [← h1]
                      trivial
                    · cases hp : parseItems f rest with
                      | none => rw [hp] at h; simp at h
                      | some p =>
                        obtain ⟨l, r1⟩ := p
                        rw [hp] at h
                        simp only [Option.map_some', Option.some.injEq, Prod.mk.injEq] at h
                        obtain ⟨h1, _⟩ := h
                        rw [← h1]
                        exact ihI rest l r1 hp
                  · split at h
                    · -- number
                      cases hp : parseNumber (c :: rest) with
                      | none => rw [hp] at h; simp at h
                      | some p =>
                        rw [hp] at h
                        simp only [Option.map_some', Option.some.injEq, Prod.mk.injEq] at h
                        obtain ⟨h1, _⟩ := h
                        rw [← h1]
                        trivial
                    · simp at h
    · intro cs l r h
      simp only [parseItems] at h
      cases hv : parseV f cs with
      | none => rw [hv] at h; simp at h
      | some vp =>
        obtain ⟨v, r1⟩ := vp
        rw [hv] at h
        simp only [Option.some_bind] at h
        split at h
        · next r2 heq =>
          cases hp : parseItems f r2 with
          | none => rw [hp] at h; simp at h
          | some p =>
            obtain ⟨l2, r3⟩ := p
            rw [hp] at h
            simp only [Option.map_some', Option.some.injEq, Prod.mk.injEq] at h
            obtain ⟨h1, _⟩ := h
            rw [← h1]
            exact ⟨ihV cs v r1 hv, ihI r2 l2 r3 hp⟩
        · next r2 heq =>
          simp only [Option.some.injEq, Prod.mk.injEq] at h
          obtain ⟨h1, _⟩ := h
          rw [← h1]
          exact ⟨ihV cs v r1 hv, trivial⟩
        · simp at h
    · intro cs ps r h
      simp only [parseMembers] at h
      split at h
      · next t1 heq =>
        cases hk : parseStrBody t1 with
        | none => rw [hk] at h; simp at h
        | some kp =>
          obtain ⟨ks, r1⟩ := kp
          rw [hk] at h
          simp only [Option.some_bind] at h
          split at h
          · next r2 heq2 =>
            cases hv : parseV f r2 with
            | none => rw [hv] at h; simp at h
            | some vp =>
              obtain ⟨v, r3⟩ := vp
              rw [hv] at h
              simp only [Option.some_bind] at h
              split at h
              · next r4 heq3 =>
                cases hm : parseMembers f r4 with
                | none => rw [hm] at h; simp at h
                | some p =>
                  obtain ⟨ps2, r5⟩ := p
                  rw [hm] at h
                  simp only [Option.map_some', Option.some.injEq, Prod.mk.injEq] at h
                  obtain ⟨h1, _⟩ := h
                  rw [← h1]
                  exact ⟨parseStrBody_clean t1 ks r1 hk, ihV r2 v r3 hv, ihM r4 ps2 r5 hm⟩
              · next r4 heq3 =>
                simp only [Option.some.injEq, Prod.mk.injEq] at h
                obtain ⟨h1, _⟩ := h
                rw [← h1]
                exact ⟨parseStrBody_clean t1 ks r1 hk, ihV r2 v r3 hv, trivial⟩
              · simp at h
          · simp at h
      · simp at h

lemma loads_wf (s : String) (v : Json) (h : loads s = some v) : wfJ v := by
  unfold loads at h
  cases hp : parseV (s.data.length + 1) s.data with
  | none => rw [hp] at h; simp at h
  | some p =>
    obtain ⟨v', rest⟩ := p
    rw [hp] at h
    have h2 : (if skipWs rest = [] then some v' else none) = some v := h
    split at h2
    · simp only [Option.some.injEq] at h2
      rw [← h2]
      exact (parse_wf _).1 s.data v' rest hp
    · simp at h2

/-- The round trip: re-parsing a pretty-printed parse result gives the
same value back. -/
lemma loads_dumps (v : Json) (hwf : wfJ v) : loads (dumps v) = some v := by
  have hlen : sizeJ v ≤ (dumpJ v 0).length + 1 := by
    have h1 := (size_le_len (sizeJ v)).1 v 0 le_rfl
    omega
  have hmain := (parse_dump ((dumpJ v 0).length + 1)).1 v 0 [] hwf hlen goodRest_nil
  rw [List.append_nil] at hmain
  unfold loads
  rw [show (dumps v).data = dumpJ v 0 from rfl, hmain]
  rfl

lemma json_branch (f : PyFile) (full : String) (hok : f.text = .ok full) :
    get_file_preview f "json" =
      (match loads (readChars full 10000) with
       | some parsed => .text (dumps parsed) "json"
       | none => .text (readChars full 10000) "json") := by
  have ht : get_file_type "json" = "text" := by decide
  cases hl : loads (readChars full 10000) with
  | some parsed => simp [get_file_preview, preview_body, ht, get_text_preview, hok, hl]
  | none => simp [get_file_preview, preview_body, ht, get_text_preview, hok, hl]

/-- C7 (amended): for files whose bytes decode as text, the json decoder
returns a `Text` result: it reads up to 10,000 characters; when the
content parses as JSON the preview is the indent-2 pretty-print, which
re-parses to the same JSON value (round-trip); when parsing fails the
raw content is returned unmodified.  A file whose bytes do not decode as
UTF-8 yields the binary placeholder instead of a `Text` result.  The
concrete content `\x7b"a":1\x7d` parses and pretty-prints to
`\x7b\n  "a": 1\n\x7d`, keeping the key and value with added
whitespace. -/
theorem claim_C7 :
    (∀ (f : PyFile) (full : String), f.text = .ok full →
      (∀ v, loads (readChars full 10000) = some v →
        get_file_preview f "json" = .text (dumps v) "json" ∧
        loads (dumps v) = some v) ∧
      (loads (readChars full 10000) = none →
        get_file_preview f "json" = .text (readChars full 10000) "json")) ∧
    (∀ f : PyFile, f.text = .unicodeErr → get_file_preview f "json" = .binary) ∧
    loads jsonText = some (Json.obj [("a", Json.num 1)]) ∧
    dumps (Json.obj [("a", Json.num 1)]) = "\x7b\n  \"a\": 1\n\x7d" := by
  refine ⟨?_, ?_, rfl, rfl⟩
  · intro f full hok
    constructor
    · intro v hv
      refine ⟨?_, loads_dumps v (loads_wf _ v hv)⟩
      rw [json_branch f full hok, hv]
    · intro hnone
      rw [json_branch f full hok, hnone]
  · intro f hu
    exact text_unicode_binary f "json" (by decide) hu

theorem claim_C7_witness :
    get_file_preview jsonFile "json" =
      .text (dumps (Json.obj [("a", Json.num 1)])) "json" ∧
    loads (dumps (Json.obj [("a", Json.num 1)])) = some (Json.obj [("a", Json.num 1)]) ∧
    get_file_preview binFile "json" = .binary := by
  have h := (claim_C7.1 jsonFile jsonText rfl).1 (Json.obj [("a", Json.num 1)]) (by rfl)
  exact ⟨h.1, h.2, claim_C7.2.1 binFile rfl⟩

theorem claim_C7_counterexample :
    get_file_preview binFile "json" = PreviewResult.binary ∧
    (∀ c e : String, PreviewResult.binary ≠ PreviewResult.text c e) := by
  refine ⟨?_, fun c e h => PreviewResult.noConfusion h⟩
  decide

end BucketViewer
